import Mathlib

/-!
Verification development for the agni session-export scripts
(get-agni-clients-by-segment.py, get-agni-sessions.py, test-client.py).

The Python scripts are shallowly embedded:
JSON values become the inductive type `Value`; Python dicts become
association lists with Python-dict update semantics (replace in place
when the key is present, append otherwise); network calls become
oracle functions passed as parameters, where `none` models a raised
request exception (a timeout, connection error, or a non-2xx status
raised by raise_for_status) that the surrounding try/except catches;
caught exceptions inside a lookup yield the source's fallback value.
-/

set_option maxHeartbeats 1000000

/-- Value is a JSON-like value as manipulated by the scripts: `null`
models Python None, `s` a string, `arr` a JSON array, `obj` a JSON
object (a Python dict, insertion ordered). -/
inductive Value where
  | null : Value
  | s (x : String) : Value
  | arr (xs : List Value) : Value
  | obj (fields : List (String × Value)) : Value

namespace Value

/-- truthy models Python truthiness for the values the scripts test:
None, the empty string, the empty list and the empty dict are falsy. -/
def truthy : Value → Bool
  | .null => false
  | .s x => !(x == "")
  | .arr xs => !xs.isEmpty
  | .obj l => !l.isEmpty

/-- hashable is true for the values Python may use as dict keys here:
scalar values. Lists and dicts are unhashable; the source would raise
an uncaught TypeError if one ever reached a dict-key position, which
never happens on real data. -/
def hashable : Value → Bool
  | .null => true
  | .s _ => true
  | .arr _ => false
  | .obj _ => false

/-- keyEq is the key equality used by the embedded dicts: Python
equality on the hashable (scalar) values. Unhashable values compare
false (they can never be stored as keys, see hashable). -/
def keyEq : Value → Value → Bool
  | .null, .null => true
  | .s a, .s b => a == b
  | _, _ => false

instance : BEq Value := ⟨keyEq⟩

end Value

/-- Dict.get? is Python `d.get(k)` restricted to the found/not-found
distinction: the first entry whose key compares equal. -/
def Dict.get? {K V : Type} [BEq K] : List (K × V) → K → Option V
  | [], _ => none
  | e :: t, k => if e.1 == k then some e.2 else Dict.get? t k

/-- Dict.getD is Python `d.get(k, default)`. -/
def Dict.getD {K V : Type} [BEq K] (d : List (K × V)) (k : K) (v₀ : V) : V :=
  (Dict.get? d k).getD v₀

/-- Dict.contains is Python `k in d`. -/
def Dict.contains {K V : Type} [BEq K] : List (K × V) → K → Bool
  | [], _ => false
  | e :: t, k => e.1 == k || Dict.contains t k

/-- Dict.set is Python `d[k] = v`: replace the value in place when the
key is present, append a new entry otherwise (insertion order kept). -/
def Dict.set {K V : Type} [BEq K] : List (K × V) → K → V → List (K × V)
  | [], k, v => [(k, v)]
  | e :: t, k, v => if e.1 == k then (k, v) :: t else e :: Dict.set t k v

/-- Dict.erase removes the entry for a key if present (Python `del` /
the removal half of `pop`). -/
def Dict.erase {K V : Type} [BEq K] : List (K × V) → K → List (K × V)
  | [], _ => []
  | e :: t, k => if e.1 == k then t else e :: Dict.erase t k

/-- Dict.pop is Python `d.pop(k, default)`: the value (or the default)
together with the dict with that key removed. -/
def Dict.pop {K V : Type} [BEq K] (d : List (K × V)) (k : K) (v₀ : V) :
    V × List (K × V) :=
  (Dict.getD d k v₀, Dict.erase d k)

/-- vget models `x.get(k, default)` on a value of unknown shape:
`none` is the AttributeError Python raises when x is not a dict. -/
def vget (v : Value) (k : String) (d : Value) : Option Value :=
  match v with
  | .obj l => some (Dict.getD l k d)
  | _ => none

/-- Record is an upstream session record or an enriched record: a
Python dict from field name to value. -/
abbrev Record := List (String × Value)

/-- Cache is the nad_cache of test-client.py: a dict from switch id to
the looked-up value. -/
abbrev Cache := List (Value × Value)

/-!
Window pagination.  Times are integers (e.g. minutes); `now` is fixed
for a run.  The source loop
    while current_from >= total_start_time:
        query [current_from, current_to); current_to = current_from;
        current_from = current_to - W
is embedded as a recursion on the moving window, with the positivity
of the width (30 minutes in the sources) as part of the guard so the
recursion is total.
-/

/-- genWindows is the window sequence the pagination loops of
get-agni-clients-by-segment.py, test-client.py and
get-agni-sessions.py walk: starting from the window (fr, to_), keep
the current window while `current_from >= total_start_time` and step
backward by the width W. -/
def genWindows (start W : Int) (fr to_ : Int) : List (Int × Int) :=
  if h : 0 < W ∧ start ≤ fr then
    (fr, to_) :: genWindows start W (fr - W) fr
  else []
  termination_by (fr - start + W).toNat
  decreasing_by omega

/-- extend_elems models Python `accumulator.extend(records)` for every
JSON shape records can take here: a list contributes its elements, a
string contributes its characters (Python iterates a string by
character, each a one-character string), a dict contributes its keys
(Python iterates a dict by key); None never reaches extend because
every call site guards on truthiness, and extend of a falsy value
contributes nothing anyway. -/
def extend_elems (records : Value) : List Value :=
  match records with
  | .arr rs => rs
  | .s x => x.data.map (fun c => Value.s (String.singleton c))
  | .obj l => l.map (fun e => Value.s e.1)
  | .null => []

/-- window_records extracts one window's records from a response body
exactly as test-client.py's in-try code
`recs = resp.json().get("data", {}).get("records", []); if recs:
all_sessions.extend(recs)` does.  In that script the except clause
catches every exception, so a non-dict body or data value (an
AttributeError inside the try) contributes nothing and the loop moves
on; a truthy non-list records value is iterated by extend. -/
def window_records (body : Value) : List Value :=
  match body with
  | .obj l =>
    match Dict.getD l "data" (.obj []) with
    | .obj dl =>
      let recs := Dict.getD dl "records" (.arr [])
      if recs.truthy then extend_elems recs else []
    | _ => []
  | _ => []

/-- window_contrib is the contribution of one window in
test-client.py's loop: nothing on a request exception (`none`) or a
non-200 status (the script checks `status_code == 200` and does not
raise), the extracted records otherwise. -/
def window_contrib (query : Int × Int → Option (Nat × Value)) (w : Int × Int) :
    List Value :=
  match query w with
  | none => []
  | some (status, body) => if status = 200 then window_records body else []

/-- get_sessions_time_sliced is test-client.py's pagination loop: walk
the windows backward, query each one, and skip a window on any failure
whatsoever — its `except Exception: pass` swallows request errors and
wrong-shape bodies alike — then keep going. -/
def get_sessions_time_sliced (query : Int × Int → Option (Nat × Value))
    (start W : Int) (fr to_ : Int) : List Value :=
  if h : 0 < W ∧ start ≤ fr then
    window_contrib query (fr, to_) ++
      get_sessions_time_sliced query start W (fr - W) fr
  else []
  termination_by (fr - start + W).toNat
  decreasing_by omega

/-- get_sessions_time_sliced_seg is the pagination loop of
get-agni-clients-by-segment.py.  Its except clause catches only
requests.exceptions.RequestException: a request exception or an
undecodable body (`none` from the oracle) is caught and the window
skipped, and raise_for_status turns a 4xx/5xx status into a caught
HTTPError (also a skip); but a decodable body whose top level or data
field is not a dict raises an uncaught AttributeError that aborts the
whole run (`none` result).  A truthy non-list records value is
iterated by extend without raising. -/
def get_sessions_time_sliced_seg (query : Int × Int → Option (Nat × Value))
    (start W : Int) (fr to_ : Int) : Option (List Value) :=
  if h : 0 < W ∧ start ≤ fr then
    match query (fr, to_) with
    | none => get_sessions_time_sliced_seg query start W (fr - W) fr
    | some (status, body) =>
      if 400 ≤ status ∧ status < 600 then
        get_sessions_time_sliced_seg query start W (fr - W) fr
      else
        match body with
        | .obj l =>
          match Dict.getD l "data" (.obj []) with
          | .obj dl =>
            let records := Dict.getD dl "records" (.arr [])
            (get_sessions_time_sliced_seg query start W (fr - W) fr).map
              (fun rest =>
                (if records.truthy then extend_elems records else []) ++ rest)
          | _ => none
        | _ => none
  else some []
  termination_by (fr - start + W).toNat
  decreasing_by all_goals omega

/-- collect_session_records is the window loop of get-agni-sessions.py.
Unlike the other two scripts it stops on failure: a request exception
(`none`) breaks the loop, and so does a truthy `error` field in the
body.  The field accesses on the body happen after the try block, so a
non-dict body or data value raises an uncaught exception crashing the
run (`none` result); a truthy non-list records value is iterated by
extend without raising. -/
def collect_session_records (query : Int × Int → Option Value)
    (start W : Int) (fr to_ : Int) : Option (List Value) :=
  if h : 0 < W ∧ start ≤ fr then
    match query (fr, to_) with
    | none => some []
    | some body =>
      match body with
      | .obj l =>
        if (Dict.getD l "error" Value.null).truthy then some []
        else
          match Dict.getD l "data" (.obj []) with
          | .obj dl =>
            let records := Dict.getD dl "records" (.arr [])
            (collect_session_records query start W (fr - W) fr).map
              (fun rest =>
                (if records.truthy then extend_elems records else []) ++ rest)
          | _ => none
      | _ => none
  else some []
  termination_by (fr - start + W).toNat
  decreasing_by all_goals omega

/-- unique_devices is the deduplication step shared by
get-agni-clients-by-segment.py and test-client.py:
    for sess in raw_sessions:
        mac = sess.get("mac")
        if not mac: continue
        unique_devices[mac] = sess
-/
def unique_devices (raw : List Record) : List (Value × Record) :=
  raw.foldl
    (fun acc sess =>
      let m := Dict.getD sess "mac" Value.null
      if m.truthy then Dict.set acc m sess else acc)
    []

/-!
Enrichment lookups of test-client.py.  Each lookup takes its upstream
endpoint as an oracle `Value → Option (Nat × Value)` mapping the
request id to `none` (request exception) or a status code and parsed
body.  All field accesses on the body happen inside the source's try
block, so a shape on which Python would raise falls back to the same
value as an exception.
-/

/-- get_nad_name is the cache-backed switch-name lookup of
test-client.py: falsy id gives "Unknown"; a cache hit returns the
cached value; otherwise fetch, and only a 200 response whose body
yields a name populates the cache.  Returns the value and the updated
cache. -/
def get_nad_name (nadF : Value → Option (Nat × Value)) (cache : Cache)
    (nad_id : Value) : Value × Cache :=
  if !nad_id.truthy then (.s "Unknown", cache)
  else
    match Dict.get? cache nad_id with
    | some v => (v, cache)
    | none =>
      match nadF nad_id with
      | some (status, body) =>
        if status = 200 then
          match vget body "data" (.obj []) with
          | none => (.s "Unknown", cache)
          | some d =>
            match vget d "name" (.s "Unknown") with
            | none => (.s "Unknown", cache)
            | some name => (name, Dict.set cache nad_id name)
        else (.s "Unknown", cache)
      | none => (.s "Unknown", cache)

/-- nadFetchName is the name a successful uncached fetch would yield:
`some name` exactly when the oracle answers 200 with a body whose
data and name accesses do not raise, `none` on any failure. -/
def nadFetchName (nadF : Value → Option (Nat × Value)) (nad_id : Value) :
    Option Value :=
  match nadF nad_id with
  | some (status, body) =>
    if status = 200 then
      (vget body "data" (.obj [])).bind (fun d => vget d "name" (.s "Unknown"))
    else none
  | none => none

/-- nad_name_val is the value get_nad_name returns when run against an
empty (or consistent) cache: the fetched name on success, "Unknown"
otherwise. -/
def nad_name_val (nadF : Value → Option (Nat × Value)) (nad_id : Value) :
    Value :=
  if nad_id.truthy then
    match nadFetchName nadF nad_id with
    | some name => name
    | none => .s "Unknown"
  else .s "Unknown"

/-- get_session_details is the port lookup of test-client.py: the
Radius NAS-Port-Id from the session details, "" on a falsy id or any
failure. -/
def get_session_details (sessF : Value → Option (Nat × Value))
    (auth_req_id : Value) : Value :=
  if !auth_req_id.truthy then .s ""
  else
    match sessF auth_req_id with
    | some (status, body) =>
      if status = 200 then
        match vget body "data" (.obj []) with
        | none => .s ""
        | some data =>
          match vget data "inputAttrs" (.obj []) with
          | none => .s ""
          | some ia =>
            match vget ia "Radius:IETF:NAS-Port-Id" (.s "") with
            | none => .s ""
            | some v => v
      else .s ""
    | none => .s ""

/-- get_client_info is the identity lookup of test-client.py: the data
envelope of a 200 response, an empty dict on any failure. -/
def get_client_info (clientF : Value → Option (Nat × Value)) (mac : Value) :
    Value :=
  match clientF mac with
  | some (status, body) =>
    if status = 200 then
      match vget body "data" (.obj []) with
      | some d => d
      | none => .obj []
    else .obj []
  | none => .obj []

/-- get_client_details is the identity lookup of
get-agni-clients-by-segment.py; its body is the same request and
fallback as get_client_info. -/
def get_client_details (clientF : Value → Option (Nat × Value)) (mac : Value) :
    Value :=
  match clientF mac with
  | some (status, body) =>
    if status = 200 then
      match vget body "data" (.obj []) with
      | some d => d
      | none => .obj []
    else .obj []
  | none => .obj []

/-!
The enrichment merge of test-client.py's enrich_device_worker.  The
worker can raise an uncaught exception (crashing the run when the
executor collects results) when a truthy non-dict reaches `.pop` or
`.items()`; that outcome is `none`.
-/

/-- flatten_attrs is the attributes flattening:
    client_attrs = client_data.pop("attributes", {})
    if client_attrs:
        for k, v in client_attrs.items():
            combined_rec[f"client_attr_" + k] = v
`none` is the uncaught exception on a truthy non-dict. -/
def flatten_attrs (combined : Record) (attrs : Value) : Option Record :=
  if attrs.truthy then
    match attrs with
    | .obj al =>
      some (al.foldl (fun c e => Dict.set c ("client_attr_" ++ e.1) e.2) combined)
    | _ => none
  else some combined

/-- flatten_cert is the certificate projection:
    cert_info = client_data.pop("certificate", None)
    if cert_info and isinstance(cert_info, dict):
        combined_rec["cert_subject"] = cert_info.get("subject")
        combined_rec["cert_expiry"] = cert_info.get("expiryDate")
-/
def flatten_cert (combined : Record) (cert : Value) : Record :=
  match cert with
  | .obj cl =>
    if (Value.obj cl).truthy then
      Dict.set (Dict.set combined "cert_subject" (Dict.getD cl "subject" .null))
        "cert_expiry" (Dict.getD cl "expiryDate" .null)
    else combined
  | _ => combined

/-- merge_remaining is the collision-rule merge of the remaining
top-level client fields:
    for k, v in client_data.items():
        if k not in combined_rec: combined_rec[k] = v
        else: combined_rec["client_" + k] = v
-/
def merge_remaining (combined : Record) (fields : Record) : Record :=
  fields.foldl
    (fun c e =>
      if Dict.contains c e.1 then Dict.set c ("client_" ++ e.1) e.2
      else Dict.set c e.1 e.2)
    combined

/-- merge_client_data is the `if client_data:` block of
enrich_device_worker: pop and flatten attributes, pop and project the
certificate, then merge the remaining fields under the collision
rule.  A truthy non-dict client_data raises at `.pop` (`none`). -/
def merge_client_data (combined : Record) (client_data : Value) :
    Option Record :=
  if client_data.truthy then
    match client_data with
    | .obj l =>
      let pa := Dict.pop l "attributes" (Value.obj [])
      (flatten_attrs combined pa.1).map (fun c1 =>
        let pc := Dict.pop pa.2 "certificate" Value.null
        merge_remaining (flatten_cert c1 pc.1) pc.2)
    | _ => none
  else some combined

/-- flatten_cert_seg is the certificate projection of
get-agni-clients-by-segment.py's enrichment loop, which writes
cert_issuer (from `issuer`) instead of cert_subject:
    cert_info = client_data.pop("certificate", None)
    if cert_info and isinstance(cert_info, dict):
        combined_rec["cert_issuer"] = cert_info.get("issuer")
        combined_rec["cert_expiry"] = cert_info.get("expiryDate")
-/
def flatten_cert_seg (combined : Record) (cert : Value) : Record :=
  match cert with
  | .obj cl =>
    if (Value.obj cl).truthy then
      Dict.set (Dict.set combined "cert_issuer" (Dict.getD cl "issuer" .null))
        "cert_expiry" (Dict.getD cl "expiryDate" .null)
    else combined
  | _ => combined

/-- merge_client_data_seg is the `if client_data:` block of
get-agni-clients-by-segment.py's enrichment loop: identical to
test-client.py's merge except for the certificate projection
(cert_issuer instead of cert_subject).  A truthy non-dict client_data
raises at `.pop`; with no worker pool the exception aborts the run
(`none`). -/
def merge_client_data_seg (combined : Record) (client_data : Value) :
    Option Record :=
  if client_data.truthy then
    match client_data with
    | .obj l =>
      let pa := Dict.pop l "attributes" (Value.obj [])
      (flatten_attrs combined pa.1).map (fun c1 =>
        let pc := Dict.pop pa.2 "certificate" Value.null
        merge_remaining (flatten_cert_seg c1 pc.1) pc.2)
    | _ => none
  else some combined

/-- enrich_record_seg is one iteration of
get-agni-clients-by-segment.py's enrichment loop for one device: copy
the base record, fetch the client details, and merge them. -/
def enrich_record_seg (clientF : Value → Option (Nat × Value))
    (mac : Value) (sess_data : Record) : Option Record :=
  merge_client_data_seg sess_data (get_client_details clientF mac)

/-- enrich_device_worker is test-client.py's per-device worker: copy
the base record, resolve the switch name (cache-backed) when nadID is
truthy, resolve the interface when authReqID is truthy, then merge the
identity lookup result.  Returns the enriched record and the updated
nad cache, or `none` when the worker raises. -/
def enrich_device_worker (nadF sessF clientF : Value → Option (Nat × Value))
    (cache : Cache) (mac : Value) (sess_data : Record) :
    Option (Record × Cache) :=
  let nad_id := Dict.getD sess_data "nadID" Value.null
  let step1 :=
    if nad_id.truthy then
      let r := get_nad_name nadF cache nad_id
      (Dict.set sess_data "switch_name" r.1, r.2)
    else (sess_data, cache)
  let auth_req_id := Dict.getD sess_data "authReqID" Value.null
  let step2 :=
    if auth_req_id.truthy then
      Dict.set step1.1 "switch_interface" (get_session_details sessF auth_req_id)
    else step1.1
  let client_data := get_client_info clientF mac
  (merge_client_data step2 client_data).map (fun r => (r, step1.2))

/-- enrich_device_record is the record enrich_device_worker produces,
independent of the cache it was handed (for any cache consistent with
the oracle): the pure reading of the worker used to state order and
count of the pooled enrichment. -/
def enrich_device_record (nadF sessF clientF : Value → Option (Nat × Value))
    (mac : Value) (sess_data : Record) : Option Record :=
  let nad_id := Dict.getD sess_data "nadID" Value.null
  let c1 :=
    if nad_id.truthy then
      Dict.set sess_data "switch_name" (nad_name_val nadF nad_id)
    else sess_data
  let auth_req_id := Dict.getD sess_data "authReqID" Value.null
  let c2 :=
    if auth_req_id.truthy then
      Dict.set c1 "switch_interface" (get_session_details sessF auth_req_id)
    else c1
  merge_client_data c2 (get_client_info clientF mac)

/-- enrich_all is the pooled enrichment collecting results in input
order (executor.map is order preserving); the shared cache is the only
state threaded through.  A worker exception surfaces when results are
collected, crashing the run (`none`). -/
def enrich_all (nadF sessF clientF : Value → Option (Nat × Value))
    (cache : Cache) : List (Value × Record) → Option (List Record × Cache)
  | [] => some ([], cache)
  | (m, sd) :: t =>
    match enrich_device_worker nadF sessF clientF cache m sd with
    | none => none
    | some (r, c) =>
      match enrich_all nadF sessF clientF c t with
      | none => none
      | some (rs, c₂) => some (r :: rs, c₂)

/-- sorted_keys is the export column ordering of both CSV writers:
take the key union in some order, then for each priority column from
last to first, if present, move it to the front. -/
def sorted_keys (priority_cols : List String) (all_keys : List String) :
    List String :=
  priority_cols.reverse.foldl
    (fun ks col => if ks.contains col then col :: ks.erase col else ks)
    all_keys

/-- nadCacheConsistent says every entry of the nad cache holds exactly
the name a fresh successful fetch for its key would produce — the
invariant the cache maintains from its initial empty state, making the
worker's output record independent of the cache state it observes. -/
def nadCacheConsistent (nadF : Value → Option (Nat × Value)) (c : Cache) :
    Prop :=
  ∀ k v, Dict.get? c k = some v → nadFetchName nadF k = some v

/-!
Key-equality facts.  The embedded dicts are generic in a BEq key type;
the lemmas below assume soundness of the comparison (it implies
equality), which holds both for String (lawful BEq) and for
Value.keyEq, plus reflexivity at the particular key where needed
(true for every String and every hashable Value).
-/

theorem Value.keyEq_sound : ∀ a b : Value, (a == b) = true → a = b := by
  intro a b h
  cases a <;> cases b <;> simp_all [BEq.beq, Value.keyEq]

theorem Value.keyEq_refl_of_hashable (a : Value) (h : a.hashable = true) :
    (a == a) = true := by
  cases a <;> simp_all [BEq.beq, Value.keyEq, Value.hashable]

theorem String.beq_sound : ∀ a b : String, (a == b) = true → a = b := by
  intro a b h
  exact eq_of_beq h

namespace Dict

variable {K V : Type} [BEq K]

theorem get?_set_self (k : K) (hrefl : (k == k) = true) (d : List (K × V))
    (v : V) : Dict.get? (Dict.set d k v) k = some v := by
  induction d with
  | nil => simp [Dict.set, Dict.get?, hrefl]
  | cons e t ih =>
    cases he : e.1 == k with
    | true => simp [Dict.set, he, Dict.get?, hrefl]
    | false => simp [Dict.set, he, Dict.get?, ih]

theorem get?_set_of_ne (sound : ∀ a b : K, (a == b) = true → a = b)
    {k k' : K} (hne : (k == k') = false) (d : List (K × V)) (v : V) :
    Dict.get? (Dict.set d k v) k' = Dict.get? d k' := by
  induction d with
  | nil => simp [Dict.set, Dict.get?, hne]
  | cons e t ih =>
    cases he : e.1 == k with
    | true =>
      have h1 : e.1 = k := sound _ _ he
      have hs : Dict.set (e :: t) k v = (k, v) :: t := by simp [Dict.set, he]
      rw [hs]
      simp [Dict.get?, hne, h1]
    | false => simp [Dict.set, he, Dict.get?, ih]

theorem get?_set_cases (sound : ∀ a b : K, (a == b) = true → a = b)
    {k k' : K} {v v' : V} {d : List (K × V)}
    (h : Dict.get? (Dict.set d k v) k' = some v') :
    ((k == k') = true ∧ v' = v) ∨ Dict.get? d k' = some v' := by
  induction d with
  | nil =>
    simp only [Dict.set, Dict.get?] at h
    rcases hkk : k == k' with _ | _ <;> simp [hkk] at h <;> simp_all
  | cons e t ih =>
    cases he : e.1 == k with
    | true =>
      have h1 : e.1 = k := sound _ _ he
      simp only [Dict.set, he, if_pos rfl] at h
      simp only [Dict.get?] at h ⊢
      rcases hkk : k == k' with _ | _ <;> simp [hkk, h1] at h ⊢ <;> simp_all
    | false =>
      simp only [Dict.set, he] at h
      simp only [Bool.false_eq_true, if_neg] at h
      simp only [Dict.get?] at h ⊢
      rcases hek : e.1 == k' with _ | _ <;> simp [hek] at h ⊢
      · exact ih h
      · exact Or.inr h

theorem contains_eq_isSome (d : List (K × V)) (k : K) :
    Dict.contains d k = (Dict.get? d k).isSome := by
  induction d with
  | nil => simp [Dict.contains, Dict.get?]
  | cons e t ih =>
    cases he : e.1 == k <;> simp [Dict.contains, Dict.get?, he, ih]

theorem contains_of_get?_some {d : List (K × V)} {k : K} {v : V}
    (h : Dict.get? d k = some v) : Dict.contains d k = true := by
  rw [contains_eq_isSome, h]; rfl

theorem get?_eq_none_of_contains_false {d : List (K × V)} {k : K}
    (h : Dict.contains d k = false) : Dict.get? d k = none := by
  rw [contains_eq_isSome] at h
  cases hg : Dict.get? d k with
  | none => rfl
  | some v => rw [hg] at h; simp at h

theorem contains_set_self (k : K) (hrefl : (k == k) = true)
    (d : List (K × V)) (v : V) : Dict.contains (Dict.set d k v) k = true := by
  rw [contains_eq_isSome, get?_set_self k hrefl]; rfl

theorem contains_set_of_ne (sound : ∀ a b : K, (a == b) = true → a = b)
    {k k' : K} (hne : (k == k') = false) (d : List (K × V)) (v : V) :
    Dict.contains (Dict.set d k v) k' = Dict.contains d k' := by
  rw [contains_eq_isSome, contains_eq_isSome, get?_set_of_ne sound hne]

theorem contains_set_mono (sound : ∀ a b : K, (a == b) = true → a = b)
    {k' : K} {d : List (K × V)} (h : Dict.contains d k' = true) (k : K)
    (v : V) : Dict.contains (Dict.set d k v) k' = true := by
  cases hkk : k == k' with
  | true =>
    have h1 : k = k' := sound _ _ hkk
    subst h1
    rw [contains_eq_isSome, get?_set_self k hkk]; rfl
  | false => rw [contains_set_of_ne sound hkk]; exact h

end Dict

/-!
Window-paginator lemmas: widths, adjacency, bounds and the exact
covered range of the generated windows.
-/

theorem genWindows_pos {start W fr to_ : Int} (hW : 0 < W) (h : start ≤ fr) :
    genWindows start W fr to_ = (fr, to_) :: genWindows start W (fr - W) fr := by
  rw [genWindows]
  simp [hW, h]

theorem genWindows_neg {start W fr to_ : Int} (h : ¬(0 < W ∧ start ≤ fr)) :
    genWindows start W fr to_ = [] := by
  rw [genWindows]
  simp [h]

theorem genWindows_width (start W : Int) :
    ∀ fr to_ : Int, to_ - fr = W →
      ∀ w ∈ genWindows start W fr to_, w.2 - w.1 = W := by
  intro fr to_
  induction fr, to_ using genWindows.induct start W with
  | case1 fr to_ hc ih =>
    intro hw w hm
    rw [genWindows_pos hc.1 hc.2] at hm
    rcases List.mem_cons.mp hm with h | h
    · subst h; simpa using hw
    · exact ih (by omega) w h
  | case2 fr to_ hc =>
    intro hw w hm
    rw [genWindows_neg hc] at hm
    simp at hm

theorem genWindows_chain (start W : Int) :
    ∀ fr to_ : Int,
      List.Chain' (fun a b : Int × Int => b.2 = a.1) (genWindows start W fr to_) := by
  intro fr to_
  induction fr, to_ using genWindows.induct start W with
  | case1 fr to_ hc ih =>
    rw [genWindows_pos hc.1 hc.2]
    refine List.chain'_cons'.mpr ⟨?_, ih⟩
    intro b hb
    by_cases h2 : 0 < W ∧ start ≤ fr - W
    · rw [genWindows_pos h2.1 h2.2] at hb
      simp at hb
      subst hb
      rfl
    · rw [genWindows_neg h2] at hb
      simp at hb
  | case2 fr to_ hc =>
    rw [genWindows_neg hc]
    exact List.chain'_nil

theorem genWindows_bounds (start W : Int) :
    ∀ fr to_ : Int, to_ - fr = W →
      ∀ w ∈ genWindows start W fr to_, start ≤ w.1 ∧ w.2 ≤ to_ := by
  intro fr to_
  induction fr, to_ using genWindows.induct start W with
  | case1 fr to_ hc ih =>
    intro hw w hm
    rw [genWindows_pos hc.1 hc.2] at hm
    rcases List.mem_cons.mp hm with h | h
    · subst h; exact ⟨hc.2, le_refl _⟩
    · have := ih (by omega) w h
      constructor
      · exact this.1
      · have hto : fr ≤ to_ := by omega
        exact le_trans this.2 hto
  | case2 fr to_ hc =>
    intro hw w hm
    rw [genWindows_neg hc] at hm
    simp at hm

theorem genWindows_cover (start W : Int) (hW : 0 < W) :
    ∀ fr to_ : Int, start ≤ fr → fr < to_ →
      ∃ cut : Int, start ≤ cut ∧ cut < start + W ∧
        ∀ t : Int,
          (∃ w ∈ genWindows start W fr to_, w.1 ≤ t ∧ t < w.2) ↔
            cut ≤ t ∧ t < to_ := by
  intro fr to_
  induction fr, to_ using genWindows.induct start W with
  | case1 fr to_ hc ih =>
    intro hfr hlt
    by_cases h2 : start ≤ fr - W
    · obtain ⟨cut, hcut1, hcut2, hcut3⟩ := ih h2 (by omega)
      refine ⟨cut, hcut1, hcut2, fun t => ?_⟩
      rw [genWindows_pos hc.1 hc.2]
      constructor
      · rintro ⟨w, hw, hwle, hwlt⟩
        rcases List.mem_cons.mp hw with h | h
        · subst h
          simp only at hwle hwlt
          omega
        · have := (hcut3 t).mp ⟨w, h, hwle, hwlt⟩
          omega
      · rintro ⟨hct, hto⟩
        by_cases hfr2 : fr ≤ t
        · exact ⟨(fr, to_), List.mem_cons_self _ _, hfr2, hto⟩
        · obtain ⟨w, hw, h4, h5⟩ := (hcut3 t).mpr ⟨hct, by omega⟩
          exact ⟨w, List.mem_cons_of_mem _ hw, h4, h5⟩
    · refine ⟨fr, hc.2, by omega, fun t => ?_⟩
      rw [genWindows_pos hc.1 hc.2, genWindows_neg (by tauto)]
      simp
  | case2 fr to_ hc =>
    intro hfr hlt
    exact absurd ⟨hW, hfr⟩ hc

theorem get_sessions_time_sliced_pos {query} {start W fr to_ : Int}
    (hW : 0 < W) (h : start ≤ fr) :
    get_sessions_time_sliced query start W fr to_ =
      window_contrib query (fr, to_) ++
        get_sessions_time_sliced query start W (fr - W) fr := by
  rw [get_sessions_time_sliced]
  simp [hW, h]

theorem get_sessions_time_sliced_neg {query} {start W fr to_ : Int}
    (h : ¬(0 < W ∧ start ≤ fr)) :
    get_sessions_time_sliced query start W fr to_ = [] := by
  rw [get_sessions_time_sliced]
  simp [h]

/-- The skip-on-failure pagination is exactly the concatenation of the
per-window contributions over the full backward window sequence: the
windows walked do not depend on any window's outcome, and a failed
window contributes nothing while the others are unaffected. -/
theorem get_sessions_time_sliced_eq_flatMap (query) (start W : Int) :
    ∀ fr to_ : Int,
      get_sessions_time_sliced query start W fr to_ =
        (genWindows start W fr to_).flatMap (window_contrib query) := by
  intro fr to_
  induction fr, to_ using genWindows.induct start W with
  | case1 fr to_ hc ih =>
    rw [get_sessions_time_sliced_pos hc.1 hc.2, genWindows_pos hc.1 hc.2]
    simp [ih]
  | case2 fr to_ hc =>
    rw [get_sessions_time_sliced_neg hc, genWindows_neg hc]
    rfl

/-- C3, counterexample.  With now = 0, lookback L = 45 and width
W = 30 the paginator generates the single window (-30, 0): the instant
-40 lies in [now - L, now) but inside no generated window, and no
query is ever issued for the partial trailing range [-45, -30) — the
claim that the windows cover the whole of [now - L, now] with partial
trailing windows included is false. -/
theorem c3_partial_trailing_window_gap_cex :
    genWindows (-45) 30 (-30) 0 = [(-30, 0)] ∧
    ((-45 : Int) ≤ -40 ∧ (-40 : Int) < 0) ∧
    ∀ w ∈ genWindows (-45) 30 (-30) 0, ¬(w.1 ≤ -40 ∧ (-40 : Int) < w.2) := by
  refine ⟨?_, by omega, ?_⟩
  · simp [genWindows]
  · intro w hw
    simp [genWindows] at hw
    subst hw
    simp

/-- C3 (amended): for every positive width W at most the lookback L,
the generated windows start at (now - W, now), all have width exactly
W (including the last), abut with no interior gaps, stay inside
[now - L, now], and cover exactly a range [cut, now) whose lower end
cut lies within W of now - L — so when W divides L the whole of
[now - L, now) is covered, and otherwise the partial trailing
sub-window below cut is excluded and no query is issued for it. -/
theorem c3_window_coverage_amended (now L W : Int) (hW : 0 < W)
    (hLW : W ≤ L) :
    (genWindows (now - L) W (now - W) now).head? = some (now - W, now) ∧
    (∀ w ∈ genWindows (now - L) W (now - W) now, w.2 - w.1 = W) ∧
    List.Chain' (fun a b : Int × Int => b.2 = a.1)
      (genWindows (now - L) W (now - W) now) ∧
    (∀ w ∈ genWindows (now - L) W (now - W) now,
      now - L ≤ w.1 ∧ w.2 ≤ now) ∧
    (∃ cut : Int, now - L ≤ cut ∧ cut < now - L + W ∧
      ∀ t : Int,
        (∃ w ∈ genWindows (now - L) W (now - W) now, w.1 ≤ t ∧ t < w.2) ↔
          cut ≤ t ∧ t < now) := by
  have hfr : now - L ≤ now - W := by omega
  refine ⟨?_, ?_, ?_, ?_, ?_⟩
  · rw [genWindows_pos hW hfr]
    rfl
  · exact genWindows_width _ _ _ _ (by omega)
  · exact genWindows_chain _ _ _ _
  · exact genWindows_bounds _ _ _ _ (by omega)
  · exact genWindows_cover _ _ hW _ _ hfr (by omega)

/-- C3, witness: the amended theorem instantiated at now = 0, L = 60,
W = 30, where the windows are (-30, 0) and (-60, -30). -/
theorem c3_window_coverage_amended_witness :
    (0 : Int) < 30 ∧ (30 : Int) ≤ 60 ∧
    ((genWindows (0 - 60) 30 (0 - 30) 0).head? = some (0 - 30, 0) ∧
    (∀ w ∈ genWindows (0 - 60) 30 (0 - 30) 0, w.2 - w.1 = 30) ∧
    List.Chain' (fun a b : Int × Int => b.2 = a.1)
      (genWindows (0 - 60) 30 (0 - 30) 0) ∧
    (∀ w ∈ genWindows (0 - 60) 30 (0 - 30) 0,
      0 - 60 ≤ w.1 ∧ w.2 ≤ 0) ∧
    (∃ cut : Int, 0 - 60 ≤ cut ∧ cut < 0 - 60 + 30 ∧
      ∀ t : Int,
        (∃ w ∈ genWindows (0 - 60) 30 (0 - 30) 0, w.1 ≤ t ∧ t < w.2) ↔
          cut ≤ t ∧ t < 0)) :=
  ⟨by decide, by decide, c3_window_coverage_amended 0 60 30 (by decide) (by decide)⟩

theorem collect_session_records_break_none {query} {start W fr to_ : Int}
    (hW : 0 < W) (hfr : start ≤ fr) (hq : query (fr, to_) = none) :
    collect_session_records query start W fr to_ = some [] := by
  rw [collect_session_records]
  simp [hW, hfr, hq]

theorem collect_session_records_break_error {query} {start W fr to_ : Int}
    (hW : 0 < W) (hfr : start ≤ fr) {l : List (String × Value)}
    (hq : query (fr, to_) = some (Value.obj l))
    (he : (Dict.getD l "error" Value.null).truthy = true) :
    collect_session_records query start W fr to_ = some [] := by
  rw [collect_session_records]
  simp [hW, hfr, hq, he]

/-- C5, counterexample.  In get-agni-sessions.py a failed window does
not merely contribute nothing: it breaks the pagination loop.  With
windows (-30, 0) and (-60, -30), an oracle failing only on the first
window yields no records at all, although the second window holds a
record (which the same loop does return when the first window
succeeds) — so the failure terminates pagination early instead of
emptying only the failed window's contribution. -/
theorem c5_failure_breaks_loop_cex :
    collect_session_records
      (fun w => if w.1 = -30 then none
        else some (Value.obj [("data", Value.obj [("records", Value.arr [Value.s "r2"])])]))
      (-60) 30 (-30) 0 = some [] ∧
    collect_session_records
      (fun _ => some (Value.obj [("data", Value.obj [("records", Value.arr [Value.s "r2"])])]))
      (-60) 30 (-30) 0 = some [Value.s "r2", Value.s "r2"] := by
  constructor
  · rw [collect_session_records]
    norm_num
  · simp [collect_session_records, Dict.getD, Dict.get?, Value.truthy,
      extend_elems]

theorem get_sessions_time_sliced_seg_skip_none {query}
    {start W fr to_ : Int} (hW : 0 < W) (hfr : start ≤ fr)
    (hq : query (fr, to_) = none) :
    get_sessions_time_sliced_seg query start W fr to_ =
      get_sessions_time_sliced_seg query start W (fr - W) fr := by
  rw [get_sessions_time_sliced_seg]
  simp [hW, hfr, hq]

theorem get_sessions_time_sliced_seg_skip_status {query}
    {start W fr to_ : Int} (hW : 0 < W) (hfr : start ≤ fr)
    {status : Nat} {body : Value}
    (hq : query (fr, to_) = some (status, body))
    (hs : 400 ≤ status ∧ status < 600) :
    get_sessions_time_sliced_seg query start W fr to_ =
      get_sessions_time_sliced_seg query start W (fr - W) fr := by
  rw [get_sessions_time_sliced_seg]
  simp [hW, hfr, hq, hs]

theorem get_sessions_time_sliced_seg_crash_body {query}
    {start W fr to_ : Int} (hW : 0 < W) (hfr : start ≤ fr)
    {status : Nat} {body : Value}
    (hq : query (fr, to_) = some (status, body))
    (hs : ¬(400 ≤ status ∧ status < 600))
    (hb : ∀ l : List (String × Value), ¬body = Value.obj l) :
    get_sessions_time_sliced_seg query start W fr to_ = none := by
  rw [get_sessions_time_sliced_seg]
  cases body with
  | obj l => exact absurd rfl (hb l)
  | null => simp [hW, hfr, hq, hs]
  | s x => simp [hW, hfr, hq, hs]
  | arr xs => simp [hW, hfr, hq, hs]

theorem get_sessions_time_sliced_seg_crash_data {query}
    {start W fr to_ : Int} (hW : 0 < W) (hfr : start ≤ fr)
    {status : Nat} {l : List (String × Value)}
    (hq : query (fr, to_) = some (status, Value.obj l))
    (hs : ¬(400 ≤ status ∧ status < 600))
    (hd : ∀ dl : List (String × Value),
      ¬Dict.getD l "data" (Value.obj []) = Value.obj dl) :
    get_sessions_time_sliced_seg query start W fr to_ = none := by
  rw [get_sessions_time_sliced_seg]
  cases hdv : Dict.getD l "data" (Value.obj []) with
  | obj dl => exact absurd hdv (hd dl)
  | null => simp [hW, hfr, hq, hs, hdv]
  | s x => simp [hW, hfr, hq, hs, hdv]
  | arr xs => simp [hW, hfr, hq, hs, hdv]

/-- C5 (amended): the three scripts differ.  In test-client.py any
window failure — request exception, non-200 status, or wrong-shape
body — contributes nothing and pagination continues over the full
window sequence with no retry (the result is the concatenation of
per-window contributions over windows that do not depend on any
outcome).  In get-agni-clients-by-segment.py a request exception or
undecodable body is likewise skipped with the loop continuing, as is a
4xx/5xx status raised by raise_for_status; but a decodable response
below 400 whose body, or whose data field, is not a JSON object raises
an uncaught AttributeError that aborts the entire run.  In
get-agni-sessions.py a request failure or a truthy error field in the
body terminates the pagination loop at that window, so all older
windows are never queried. -/
theorem c5_failure_policy_amended
    (query₁ query₃ : Int × Int → Option (Nat × Value))
    (query₂ : Int × Int → Option Value) (start W fr to_ : Int)
    (hW : 0 < W) (hfr : start ≤ fr) :
    (get_sessions_time_sliced query₁ start W fr to_ =
      (genWindows start W fr to_).flatMap (window_contrib query₁)) ∧
    (query₃ (fr, to_) = none →
      get_sessions_time_sliced_seg query₃ start W fr to_ =
        get_sessions_time_sliced_seg query₃ start W (fr - W) fr) ∧
    (∀ (status : Nat) (body : Value),
      query₃ (fr, to_) = some (status, body) →
      400 ≤ status → status < 600 →
      get_sessions_time_sliced_seg query₃ start W fr to_ =
        get_sessions_time_sliced_seg query₃ start W (fr - W) fr) ∧
    (∀ (status : Nat) (body : Value),
      query₃ (fr, to_) = some (status, body) →
      ¬(400 ≤ status ∧ status < 600) →
      (∀ l : List (String × Value), ¬body = Value.obj l) →
      get_sessions_time_sliced_seg query₃ start W fr to_ = none) ∧
    (∀ (status : Nat) (l : List (String × Value)),
      query₃ (fr, to_) = some (status, Value.obj l) →
      ¬(400 ≤ status ∧ status < 600) →
      (∀ dl : List (String × Value),
        ¬Dict.getD l "data" (Value.obj []) = Value.obj dl) →
      get_sessions_time_sliced_seg query₃ start W fr to_ = none) ∧
    (query₂ (fr, to_) = none →
      collect_session_records query₂ start W fr to_ = some []) ∧
    (∀ l : List (String × Value), query₂ (fr, to_) = some (Value.obj l) →
      (Dict.getD l "error" Value.null).truthy = true →
      collect_session_records query₂ start W fr to_ = some []) := by
  refine ⟨get_sessions_time_sliced_eq_flatMap _ _ _ _ _, ?_, ?_, ?_, ?_, ?_, ?_⟩
  · intro hq
    exact get_sessions_time_sliced_seg_skip_none hW hfr hq
  · intro status body hq h4 h6
    exact get_sessions_time_sliced_seg_skip_status hW hfr hq ⟨h4, h6⟩
  · intro status body hq hs hb
    exact get_sessions_time_sliced_seg_crash_body hW hfr hq hs hb
  · intro status l hq hs hd
    exact get_sessions_time_sliced_seg_crash_data hW hfr hq hs hd
  · intro hq
    exact collect_session_records_break_none hW hfr hq
  · intro l hq he
    exact collect_session_records_break_error hW hfr hq he

/-- C5, witness: the amended failure policy at the concrete windows
(-30, 0), (-60, -30) with the always-failing oracles. -/
theorem c5_failure_policy_amended_witness :
    (0 : Int) < 30 ∧ (-60 : Int) ≤ -30 ∧
    ((get_sessions_time_sliced (fun _ => none) (-60) 30 (-30) 0 =
      (genWindows (-60) 30 (-30) 0).flatMap (window_contrib (fun _ => none))) ∧
    ((fun _ : Int × Int => (none : Option (Nat × Value))) (-30, 0) = none →
      get_sessions_time_sliced_seg (fun _ => none) (-60) 30 (-30) 0 =
        get_sessions_time_sliced_seg (fun _ => none) (-60) 30 (-30 - 30) (-30)) ∧
    (∀ (status : Nat) (body : Value),
      (fun _ : Int × Int => (none : Option (Nat × Value))) (-30, 0) =
        some (status, body) →
      400 ≤ status → status < 600 →
      get_sessions_time_sliced_seg (fun _ => none) (-60) 30 (-30) 0 =
        get_sessions_time_sliced_seg (fun _ => none) (-60) 30 (-30 - 30) (-30)) ∧
    (∀ (status : Nat) (body : Value),
      (fun _ : Int × Int => (none : Option (Nat × Value))) (-30, 0) =
        some (status, body) →
      ¬(400 ≤ status ∧ status < 600) →
      (∀ l : List (String × Value), ¬body = Value.obj l) →
      get_sessions_time_sliced_seg (fun _ => none) (-60) 30 (-30) 0 = none) ∧
    (∀ (status : Nat) (l : List (String × Value)),
      (fun _ : Int × Int => (none : Option (Nat × Value))) (-30, 0) =
        some (status, Value.obj l) →
      ¬(400 ≤ status ∧ status < 600) →
      (∀ dl : List (String × Value),
        ¬Dict.getD l "data" (Value.obj []) = Value.obj dl) →
      get_sessions_time_sliced_seg (fun _ => none) (-60) 30 (-30) 0 = none) ∧
    ((fun _ : Int × Int => (none : Option Value)) (-30, 0) = none →
      collect_session_records (fun _ => none) (-60) 30 (-30) 0 = some []) ∧
    (∀ l : List (String × Value),
      (fun _ : Int × Int => (none : Option Value)) (-30, 0) = some (Value.obj l) →
      (Dict.getD l "error" Value.null).truthy = true →
      collect_session_records (fun _ => none) (-60) 30 (-30) 0 = some [])) :=
  ⟨by decide, by decide,
    c5_failure_policy_amended (fun _ => none) (fun _ => none) (fun _ => none)
      (-60) 30 (-30) 0 (by decide) (by decide)⟩

/-!
Deduplicator lemmas.  unique_devices is a left fold of Python dict
assignment over the raw records; the stored representative for a key
is the last record in iteration order whose mac compares equal to it.
-/

theorem unique_devices_foldl_get (m : Value) (hh : m.hashable = true)
    (ht : m.truthy = true) :
    ∀ (l : List Record) (acc : List (Value × Record)),
      Dict.get?
        (l.foldl
          (fun acc sess =>
            let mv := Dict.getD sess "mac" Value.null
            if mv.truthy then Dict.set acc mv sess else acc)
          acc) m =
        match (l.filter
            (fun sess => Dict.getD sess "mac" Value.null == m)).getLast? with
        | some r => some r
        | none => Dict.get? acc m := by
  intro l
  induction l with
  | nil => intro acc; simp
  | cons sess t ih =>
    intro acc
    rw [List.foldl_cons, List.filter_cons]
    cases hms : Dict.getD sess "mac" Value.null == m with
    | true =>
      have hEq : Dict.getD sess "mac" Value.null = m := Value.keyEq_sound _ _ hms
      have htr : (Dict.getD sess "mac" Value.null).truthy = true := by
        rw [hEq]; exact ht
      rw [ih]
      simp only [hms, htr, if_true, ite_true, List.getLast?_cons]
      cases hft : (t.filter
          (fun sess => Dict.getD sess "mac" Value.null == m)).getLast? with
      | some r => simp [hft]
      | none =>
        simp [hft, hEq,
          Dict.get?_set_self m (Value.keyEq_refl_of_hashable m hh)]
    | false =>
      simp only [hms]
      simp only [Bool.false_eq_true, if_neg]
      rw [ih]
      by_cases htr : (Dict.getD sess "mac" Value.null).truthy = true
      · simp only [htr, ite_true]
        rw [Dict.get?_set_of_ne Value.keyEq_sound hms]
        simp only [if_false]
      · simp only [Bool.not_eq_true] at htr
        simp [htr]

/-- C2: the Deduplicator maps each natural key to the last record in
iteration order carrying that key — a recurring key's representative
is replaced unconditionally, so under the paginator's backward
traversal the occurrence processed last (the oldest window's) wins. -/
theorem c2_dedup_last_occurrence_wins (m : Value) (hh : m.hashable = true)
    (ht : m.truthy = true) (raw : List Record) :
    Dict.get? (unique_devices raw) m =
      (raw.filter
        (fun sess => Dict.getD sess "mac" Value.null == m)).getLast? := by
  unfold unique_devices
  rw [unique_devices_foldl_get m hh ht raw []]
  cases hft : (raw.filter
      (fun sess => Dict.getD sess "mac" Value.null == m)).getLast? with
  | some r => rfl
  | none => rfl

/-- C2, witness: with two records for mac "AA", the stored
representative is the second (last-processed) one. -/
theorem c2_dedup_last_occurrence_wins_witness :
    (Value.s "AA").hashable = true ∧ (Value.s "AA").truthy = true ∧
    Dict.get? (unique_devices
        [[("mac", Value.s "AA"), ("ip", Value.s "10.0.0.2")],
         [("mac", Value.s "AA"), ("ip", Value.s "10.0.0.1")]]) (Value.s "AA") =
      ([[("mac", Value.s "AA"), ("ip", Value.s "10.0.0.2")],
        [("mac", Value.s "AA"), ("ip", Value.s "10.0.0.1")]].filter
          (fun sess =>
            Dict.getD sess "mac" Value.null == Value.s "AA")).getLast? :=
  ⟨rfl, rfl,
    c2_dedup_last_occurrence_wins (Value.s "AA") rfl rfl
      [[("mac", Value.s "AA"), ("ip", Value.s "10.0.0.2")],
       [("mac", Value.s "AA"), ("ip", Value.s "10.0.0.1")]]⟩

/-- C1: evaluation at the failing input.  The first-listed record is
the one from the more recent window; after deduplication the stored
representative is the second (older) record — the first-seen, most
recent observation is overwritten, contradicting the claimed
invariant (and the source comment that the overwrite keeps the latest
session info). -/
theorem c1_dedup_overwrites_first_seen :
    Dict.get? (unique_devices
        [[("mac", Value.s "AA"), ("ip", Value.s "10.0.0.2")],
         [("mac", Value.s "AA"), ("ip", Value.s "10.0.0.1")]]) (Value.s "AA") =
      some [("mac", Value.s "AA"), ("ip", Value.s "10.0.0.1")] ∧
    ([("mac", Value.s "AA"), ("ip", Value.s "10.0.0.1")] : Record) ≠
      [("mac", Value.s "AA"), ("ip", Value.s "10.0.0.2")] := by
  refine ⟨rfl, ?_⟩
  intro h
  simp at h

/-- C9: a raw record whose mac field is falsy is excluded from
deduplication exactly as if it were absent — the record contributes
nothing wherever it sits in the stream, because exclusion tests the
truthiness of the mac value, not the presence of the key. -/
theorem c9_falsy_mac_excluded (sess : Record)
    (h : (Dict.getD sess "mac" Value.null).truthy = false) :
    ∀ l1 l2 : List Record,
      unique_devices (l1 ++ sess :: l2) = unique_devices (l1 ++ l2) := by
  intro l1 l2
  unfold unique_devices
  rw [List.foldl_append, List.foldl_append, List.foldl_cons]
  simp [h]

/-- C9, witness: a record whose mac is present but the empty string is
dropped just like a record without the key. -/
theorem c9_falsy_mac_excluded_witness :
    (Dict.getD [("mac", Value.s "")] "mac" Value.null).truthy = false ∧
    unique_devices
        [[("mac", Value.s "BB")], [("mac", Value.s "")],
         [("ip", Value.s "10.0.0.9")]] =
      unique_devices [[("mac", Value.s "BB")], [("ip", Value.s "10.0.0.9")]] :=
  ⟨rfl,
    c9_falsy_mac_excluded [("mac", Value.s "")] rfl
      [[("mac", Value.s "BB")]] [[("ip", Value.s "10.0.0.9")]]⟩

/-- C6: behavior of the cache-backed switch-name lookup for a truthy
key.  A cache hit returns the cached value with the cache unchanged,
for any fetch oracle whatsoever — the fetch is not consulted.  On a
cache miss the call consults the oracle: a successful fetch stores the
extracted name under the key, while any failure (exception, non-200,
bad shape) returns "Unknown" and leaves the cache exactly as it was,
so a later call for that key re-attempts the fetch.  A stored success
is subsequently readable, so later calls for the key hit the cache. -/
theorem c6_nad_cache_behavior (nadF : Value → Option (Nat × Value))
    (cache : Cache) (k : Value) (ht : k.truthy = true) :
    (∀ v, Dict.get? cache k = some v →
      ∀ g : Value → Option (Nat × Value), get_nad_name g cache k = (v, cache)) ∧
    (Dict.get? cache k = none →
      get_nad_name nadF cache k =
        match nadFetchName nadF k with
        | some n => (n, Dict.set cache k n)
        | none => (Value.s "Unknown", cache)) ∧
    (k.hashable = true → ∀ n, nadFetchName nadF k = some n →
      Dict.get? (Dict.set cache k n) k = some n) := by
  refine ⟨?_, ?_, ?_⟩
  · intro v hv g
    unfold get_nad_name
    simp [ht, hv]
  · intro hnone
    unfold get_nad_name nadFetchName
    simp only [ht, Bool.not_true, Bool.false_eq_true, if_neg, hnone]
    rcases hq : nadF k with _ | ⟨st, body⟩
    · simp
    · by_cases hst : st = 200
      · subst hst
        simp only [if_pos rfl]
        rcases hd : vget body "data" (.obj []) with _ | d
        · simp
        · rcases hn : vget d "name" (.s "Unknown") with _ | nm
          · simp [hn]
          · simp [hn]
      · simp [hst]
  · intro hh n hfn
    exact Dict.get?_set_self k (Value.keyEq_refl_of_hashable k hh) cache n

/-- C6, witness: the cache behavior at key "n1" with an empty cache
and an oracle answering 200 with name "sw1". -/
theorem c6_nad_cache_behavior_witness :
    (Value.s "n1").truthy = true ∧
    ((∀ v, Dict.get? ([] : Cache) (Value.s "n1") = some v →
      ∀ g : Value → Option (Nat × Value),
        get_nad_name g [] (Value.s "n1") = (v, [])) ∧
    (Dict.get? ([] : Cache) (Value.s "n1") = none →
      get_nad_name
          (fun _ => some (200,
            Value.obj [("data", Value.obj [("name", Value.s "sw1")])]))
          [] (Value.s "n1") =
        match nadFetchName
            (fun _ => some (200,
              Value.obj [("data", Value.obj [("name", Value.s "sw1")])]))
            (Value.s "n1") with
        | some n => (n, Dict.set [] (Value.s "n1") n)
        | none => (Value.s "Unknown", [])) ∧
    ((Value.s "n1").hashable = true →
      ∀ n, nadFetchName
          (fun _ => some (200,
            Value.obj [("data", Value.obj [("name", Value.s "sw1")])]))
          (Value.s "n1") = some n →
        Dict.get? (Dict.set [] (Value.s "n1") n) (Value.s "n1") = some n)) :=
  ⟨rfl,
    c6_nad_cache_behavior
      (fun _ => some (200,
        Value.obj [("data", Value.obj [("name", Value.s "sw1")])]))
      [] (Value.s "n1") rfl⟩

/-- Unequal strings compare false under BEq. -/
theorem String.beq_false_of_ne {a b : String} (h : ¬a = b) : (a == b) = false := by
  cases hab : a == b with
  | false => rfl
  | true => exact absurd (eq_of_beq hab) h

/-- A switch-name lookup whose fetch raises leaves any cache without
the key unchanged and falls back to "Unknown". -/
theorem get_nad_name_fetch_none {nadF : Value → Option (Nat × Value)}
    {cache : Cache} {k : Value} (hmiss : Dict.get? cache k = none)
    (hq : nadF k = none) :
    get_nad_name nadF cache k = (Value.s "Unknown", cache) := by
  unfold get_nad_name
  by_cases ht : k.truthy = true
  · simp [ht, hmiss, hq]
  · simp only [Bool.not_eq_true] at ht
    simp [ht]

/-- A port lookup whose fetch raises falls back to the empty string. -/
theorem get_session_details_fetch_none {sessF : Value → Option (Nat × Value)}
    {k : Value} (hq : sessF k = none) :
    get_session_details sessF k = Value.s "" := by
  unfold get_session_details
  by_cases ht : k.truthy = true
  · simp [ht, hq]
  · simp only [Bool.not_eq_true] at ht
    simp [ht]

/-- An identity lookup whose fetch raises falls back to an empty dict. -/
theorem get_client_info_fetch_none {clientF : Value → Option (Nat × Value)}
    {mac : Value} (hq : clientF mac = none) :
    get_client_info clientF mac = Value.obj [] := by
  unfold get_client_info
  simp [hq]

/-- The by-segment identity lookup falls back to an empty dict too. -/
theorem get_client_details_fetch_none {clientF : Value → Option (Nat × Value)}
    {mac : Value} (hq : clientF mac = none) :
    get_client_details clientF mac = Value.obj [] := by
  unfold get_client_details
  simp [hq]

/-- C7: when every per-device lookup fails, each getter returns only
its empty fallback ("" / empty dict / "Unknown"), the worker still
returns a record (no exception propagates) equal to the base record
with just the fixed default fields added, every other field keeps its
base value, the cache is untouched, and the batch fold continues over
the remaining devices unchanged. -/
theorem c7_lookup_failure_isolated
    (nadF sessF clientF : Value → Option (Nat × Value)) (cache : Cache)
    (mac : Value) (sess : Record)
    (hnad : nadF (Dict.getD sess "nadID" Value.null) = none)
    (hsess : sessF (Dict.getD sess "authReqID" Value.null) = none)
    (hclient : clientF mac = none)
    (hmiss : Dict.get? cache (Dict.getD sess "nadID" Value.null) = none) :
    get_session_details sessF (Dict.getD sess "authReqID" Value.null) =
      Value.s "" ∧
    get_client_info clientF mac = Value.obj [] ∧
    get_client_details clientF mac = Value.obj [] ∧
    get_nad_name nadF cache (Dict.getD sess "nadID" Value.null) =
      (Value.s "Unknown", cache) ∧
    ∃ rec : Record,
      enrich_device_worker nadF sessF clientF cache mac sess =
        some (rec, cache) ∧
      rec =
        (if (Dict.getD sess "authReqID" Value.null).truthy then
          Dict.set
            (if (Dict.getD sess "nadID" Value.null).truthy then
              Dict.set sess "switch_name" (Value.s "Unknown") else sess)
            "switch_interface" (Value.s "")
        else
          (if (Dict.getD sess "nadID" Value.null).truthy then
            Dict.set sess "switch_name" (Value.s "Unknown") else sess)) ∧
      (∀ k : String, ¬k = "switch_name" → ¬k = "switch_interface" →
        Dict.get? rec k = Dict.get? sess k) ∧
      ((Dict.getD sess "nadID" Value.null).truthy = true →
        Dict.get? rec "switch_name" = some (Value.s "Unknown")) ∧
      ((Dict.getD sess "authReqID" Value.null).truthy = true →
        Dict.get? rec "switch_interface" = some (Value.s "")) ∧
      (∀ t : List (Value × Record),
        enrich_all nadF sessF clientF cache ((mac, sess) :: t) =
          (enrich_all nadF sessF clientF cache t).map
            (fun p => (rec :: p.1, p.2))) := by
  have h1 := get_session_details_fetch_none hsess
  have h2 := get_client_info_fetch_none hclient
  have h3 := get_client_details_fetch_none hclient
  have h4 := get_nad_name_fetch_none hmiss hnad
  have hw : enrich_device_worker nadF sessF clientF cache mac sess =
      some
        ((if (Dict.getD sess "authReqID" Value.null).truthy then
          Dict.set
            (if (Dict.getD sess "nadID" Value.null).truthy then
              Dict.set sess "switch_name" (Value.s "Unknown") else sess)
            "switch_interface" (Value.s "")
        else
          (if (Dict.getD sess "nadID" Value.null).truthy then
            Dict.set sess "switch_name" (Value.s "Unknown") else sess)),
        cache) := by
    unfold enrich_device_worker
    simp only [h4, h2, h1]
    by_cases hn : (Dict.getD sess "nadID" Value.null).truthy = true <;>
      by_cases ha : (Dict.getD sess "authReqID" Value.null).truthy = true <;>
      simp [hn, ha, merge_client_data,
        show (Value.obj []).truthy = false from rfl]
  refine ⟨h1, h2, h3, h4, _, hw, rfl, ?_, ?_, ?_, ?_⟩
  · intro k hk1 hk2
    have hb1 : (("switch_interface" : String) == k) = false :=
      String.beq_false_of_ne (fun h => hk2 h.symm)
    have hb2 : (("switch_name" : String) == k) = false :=
      String.beq_false_of_ne (fun h => hk1 h.symm)
    by_cases hn : (Dict.getD sess "nadID" Value.null).truthy = true
    · by_cases ha : (Dict.getD sess "authReqID" Value.null).truthy = true
      · simp only [hn, ha, ite_true]
        rw [Dict.get?_set_of_ne String.beq_sound hb1,
          Dict.get?_set_of_ne String.beq_sound hb2]
      · simp only [Bool.not_eq_true] at ha
        simp only [hn, ha, ite_true, Bool.false_eq_true, ite_false]
        rw [Dict.get?_set_of_ne String.beq_sound hb2]
    · simp only [Bool.not_eq_true] at hn
      by_cases ha : (Dict.getD sess "authReqID" Value.null).truthy = true
      · simp only [hn, ha, ite_true, Bool.false_eq_true, ite_false]
        rw [Dict.get?_set_of_ne String.beq_sound hb1]
      · simp only [Bool.not_eq_true] at ha
        simp only [hn, ha, Bool.false_eq_true, ite_false]
  · intro hn
    by_cases ha : (Dict.getD sess "authReqID" Value.null).truthy = true
    · simp only [hn, ha, ite_true]
      rw [Dict.get?_set_of_ne String.beq_sound (by decide),
        Dict.get?_set_self "switch_name" (by decide)]
    · simp only [Bool.not_eq_true] at ha
      simp only [hn, ha, ite_true, Bool.false_eq_true, ite_false]
      rw [Dict.get?_set_self "switch_name" (by decide)]
  · intro ha
    simp only [ha, ite_true]
    rw [Dict.get?_set_self "switch_interface" (by decide)]
  · intro t
    simp only [enrich_all, hw]
    cases he : enrich_all nadF sessF clientF cache t with
    | none => simp
    | some p => simp

/-- C7, witness: a device with truthy nadID and authReqID whose three
lookups all raise; the worker output is the base record plus
switch_name = "Unknown" and switch_interface = "". -/
theorem c7_lookup_failure_isolated_witness :
    ((fun _ : Value => (none : Option (Nat × Value)))
        (Dict.getD [("mac", Value.s "AA"), ("nadID", Value.s "n1"),
          ("authReqID", Value.s "q1")] "nadID" Value.null) = none) ∧
    (Dict.get? ([] : Cache)
        (Dict.getD [("mac", Value.s "AA"), ("nadID", Value.s "n1"),
          ("authReqID", Value.s "q1")] "nadID" Value.null) = none) ∧
    (get_session_details (fun _ => none)
        (Dict.getD [("mac", Value.s "AA"), ("nadID", Value.s "n1"),
          ("authReqID", Value.s "q1")] "authReqID" Value.null) =
      Value.s "" ∧
    get_client_info (fun _ => none) (Value.s "AA") = Value.obj [] ∧
    get_client_details (fun _ => none) (Value.s "AA") = Value.obj [] ∧
    get_nad_name (fun _ => none) []
        (Dict.getD [("mac", Value.s "AA"), ("nadID", Value.s "n1"),
          ("authReqID", Value.s "q1")] "nadID" Value.null) =
      (Value.s "Unknown", []) ∧
    ∃ rec : Record,
      enrich_device_worker (fun _ => none) (fun _ => none) (fun _ => none) []
          (Value.s "AA")
          [("mac", Value.s "AA"), ("nadID", Value.s "n1"),
            ("authReqID", Value.s "q1")] =
        some (rec, []) ∧
      rec =
        (if (Dict.getD [("mac", Value.s "AA"), ("nadID", Value.s "n1"),
              ("authReqID", Value.s "q1")] "authReqID" Value.null).truthy then
          Dict.set
            (if (Dict.getD [("mac", Value.s "AA"), ("nadID", Value.s "n1"),
                  ("authReqID", Value.s "q1")] "nadID" Value.null).truthy then
              Dict.set [("mac", Value.s "AA"), ("nadID", Value.s "n1"),
                ("authReqID", Value.s "q1")] "switch_name" (Value.s "Unknown")
            else [("mac", Value.s "AA"), ("nadID", Value.s "n1"),
              ("authReqID", Value.s "q1")])
            "switch_interface" (Value.s "")
        else
          (if (Dict.getD [("mac", Value.s "AA"), ("nadID", Value.s "n1"),
                ("authReqID", Value.s "q1")] "nadID" Value.null).truthy then
            Dict.set [("mac", Value.s "AA"), ("nadID", Value.s "n1"),
              ("authReqID", Value.s "q1")] "switch_name" (Value.s "Unknown")
          else [("mac", Value.s "AA"), ("nadID", Value.s "n1"),
            ("authReqID", Value.s "q1")])) ∧
      (∀ k : String, ¬k = "switch_name" → ¬k = "switch_interface" →
        Dict.get? rec k =
          Dict.get? [("mac", Value.s "AA"), ("nadID", Value.s "n1"),
            ("authReqID", Value.s "q1")] k) ∧
      ((Dict.getD [("mac", Value.s "AA"), ("nadID", Value.s "n1"),
          ("authReqID", Value.s "q1")] "nadID" Value.null).truthy = true →
        Dict.get? rec "switch_name" = some (Value.s "Unknown")) ∧
      ((Dict.getD [("mac", Value.s "AA"), ("nadID", Value.s "n1"),
          ("authReqID", Value.s "q1")] "authReqID" Value.null).truthy = true →
        Dict.get? rec "switch_interface" = some (Value.s "")) ∧
      (∀ t : List (Value × Record),
        enrich_all (fun _ => none) (fun _ => none) (fun _ => none) []
            ((Value.s "AA",
              [("mac", Value.s "AA"), ("nadID", Value.s "n1"),
                ("authReqID", Value.s "q1")]) :: t) =
          (enrich_all (fun _ => none) (fun _ => none) (fun _ => none) [] t).map
            (fun p => (rec :: p.1, p.2)))) :=
  ⟨rfl, rfl,
    c7_lookup_failure_isolated (fun _ => none) (fun _ => none) (fun _ => none)
      [] (Value.s "AA")
      [("mac", Value.s "AA"), ("nadID", Value.s "n1"),
        ("authReqID", Value.s "q1")] rfl rfl rfl rfl⟩

/-- Left cancellation of string append. -/
theorem String.append_cancel_left_eq {s t u : String} (h : s ++ t = s ++ u) :
    t = u := by
  have hd := congrArg String.data h
  rw [String.data_append, String.data_append] at hd
  have h2 := List.append_cancel_left hd
  cases t; cases u
  simp_all

/-- The attribute-flattening key names carry the client underscore
name as a proper prefix. -/
theorem client_attr_decomp (x : String) :
    "client_attr_" ++ x = "client_" ++ ("attr_" ++ x) := by
  rw [← String.append_assoc]
  rfl

/-- One step of the remaining-field merge loop. -/
theorem merge_remaining_cons (c : Record) (e : String × Value) (t : Record) :
    merge_remaining c (e :: t) =
      merge_remaining
        (if Dict.contains c e.1 then Dict.set c ("client_" ++ e.1) e.2
         else Dict.set c e.1 e.2) t := rfl

/-- A fold writing only keys of the form pre ++ x never touches a key
not of that form. -/
theorem foldl_set_prefixed_get (pre k : String)
    (hcl : ∀ x : String, ¬k = pre ++ x) :
    ∀ (al : List (String × Value)) (c : Record),
      Dict.get? (al.foldl (fun c e => Dict.set c (pre ++ e.1) e.2) c) k =
        Dict.get? c k := by
  intro al
  induction al with
  | nil => intro c; rfl
  | cons e t ih =>
    intro c
    rw [List.foldl_cons, ih]
    exact Dict.get?_set_of_ne String.beq_sound
      (String.beq_false_of_ne (fun h => hcl e.1 h.symm)) _ _

/-- Attribute flattening only writes client underscore attr keys, so
every other key keeps its value. -/
theorem flatten_attrs_get_preserved {c c1 : Record} {attrs : Value}
    {k : String} (hcl : ∀ x : String, ¬k = "client_" ++ x)
    (hf : flatten_attrs c attrs = some c1) :
    Dict.get? c1 k = Dict.get? c k := by
  unfold flatten_attrs at hf
  by_cases ht : attrs.truthy = true
  · rw [if_pos ht] at hf
    cases attrs with
    | obj al =>
      have hc1 := Option.some.inj hf
      subst hc1
      exact foldl_set_prefixed_get "client_attr_" k
        (fun x h => hcl ("attr_" ++ x) (by rw [h, client_attr_decomp])) al c
    | null => cases hf
    | s x => cases hf
    | arr xs => cases hf
  · rw [if_neg ht] at hf
    rw [← Option.some.inj hf]

/-- Certificate projection only writes cert_subject and cert_expiry. -/
theorem flatten_cert_get_preserved {c : Record} {cert : Value} {k : String}
    (h3 : ¬k = "cert_subject") (h4 : ¬k = "cert_expiry") :
    Dict.get? (flatten_cert c cert) k = Dict.get? c k := by
  cases cert with
  | obj cl =>
    unfold flatten_cert
    dsimp only
    by_cases ht : (Value.obj cl).truthy = true
    · rw [if_pos ht]
      rw [Dict.get?_set_of_ne String.beq_sound
        (String.beq_false_of_ne (fun h => h4 h.symm)),
        Dict.get?_set_of_ne String.beq_sound
        (String.beq_false_of_ne (fun h => h3 h.symm))]
    · rw [if_neg ht]
  | null => rfl
  | s x => rfl
  | arr xs => rfl

/-- The remaining-field merge never overwrites a key that is already
present and is not itself an alias name: present keys are routed to
the alias branch, fresh adds require absence. -/
theorem merge_remaining_get_present {k : String}
    (hcl : ∀ x : String, ¬k = "client_" ++ x) :
    ∀ (fields c : Record) (v : Value),
      Dict.get? c k = some v →
      Dict.get? (merge_remaining c fields) k = some v := by
  intro fields
  induction fields with
  | nil => intro c v h; exact h
  | cons e t ih =>
    intro c v h
    rw [merge_remaining_cons]
    by_cases hc : Dict.contains c e.1 = true
    · rw [if_pos hc]
      apply ih
      rw [Dict.get?_set_of_ne String.beq_sound
        (String.beq_false_of_ne (fun hh => hcl e.1 hh.symm))]
      exact h
    · rw [if_neg hc]
      apply ih
      have hne : ¬e.1 = k := by
        intro hh
        exact hc (hh ▸ Dict.contains_of_get?_some h)
      rw [Dict.get?_set_of_ne String.beq_sound (String.beq_false_of_ne hne)]
      exact h

/-- The remaining-field merge leaves a key unchanged when no field
writes it, neither plainly nor as its alias. -/
theorem merge_remaining_get_unwritten (K : String) :
    ∀ (fields c : Record),
      (∀ e ∈ fields, ¬e.1 = K ∧ ¬("client_" ++ e.1) = K) →
      Dict.get? (merge_remaining c fields) K = Dict.get? c K := by
  intro fields
  induction fields with
  | nil => intro c _; rfl
  | cons e t ih =>
    intro c hff
    rw [merge_remaining_cons]
    rw [ih _ (fun e' he' => hff e' (List.mem_cons_of_mem _ he'))]
    have he := hff e (List.mem_cons_self _ _)
    by_cases hc : Dict.contains c e.1 = true
    · rw [if_pos hc, Dict.get?_set_of_ne String.beq_sound
        (String.beq_false_of_ne he.2)]
    · rw [if_neg hc, Dict.get?_set_of_ne String.beq_sound
        (String.beq_false_of_ne he.1)]

/-- The collision rule of the remaining-field merge: a secondary field
whose name collides with an existing field is stored under its alias,
and the existing field keeps its value (fields keyed without the
alias name, unique keys). -/
theorem merge_remaining_collision_alias :
    ∀ (fields c : Record) (kf : String) (vf : Value),
      (fields.map Prod.fst).Nodup →
      (∀ e ∈ fields, ∀ x : String, ¬e.1 = "client_" ++ x) →
      (kf, vf) ∈ fields →
      Dict.contains c kf = true →
      Dict.get? (merge_remaining c fields) ("client_" ++ kf) = some vf ∧
      Dict.get? (merge_remaining c fields) kf = Dict.get? c kf := by
  intro fields
  induction fields with
  | nil => intro c kf vf _ _ hm _; simp at hm
  | cons e t ih =>
    intro c kf vf hnd hncl hm hc
    rw [merge_remaining_cons]
    rcases List.mem_cons.mp hm with heq | hmt
    · subst heq
      dsimp only at hc hnd hncl ⊢
      rw [if_pos hc]
      constructor
      · rw [merge_remaining_get_unwritten _ t _ ?_]
        · exact Dict.get?_set_self _ (by simp) _ _
        · intro e' he'
          constructor
          · intro hh
            exact hncl e' (List.mem_cons_of_mem _ he') kf hh
          · intro hh
            have hek : e'.1 ∈ t.map Prod.fst :=
              List.mem_map_of_mem Prod.fst he'
            rw [String.append_cancel_left_eq hh] at hek
            exact (List.nodup_cons.mp hnd).1 hek
      · rw [merge_remaining_get_unwritten _ t _ ?_]
        · exact Dict.get?_set_of_ne String.beq_sound
            (String.beq_false_of_ne
              (fun hh => hncl (kf, vf) (List.mem_cons_self _ _) kf hh.symm)) _ _
        · intro e' he'
          constructor
          · intro hh
            have hek : e'.1 ∈ t.map Prod.fst :=
              List.mem_map_of_mem Prod.fst he'
            rw [hh] at hek
            exact (List.nodup_cons.mp hnd).1 hek
          · intro hh
            exact hncl (kf, vf) (List.mem_cons_self _ _) e'.1 hh.symm
    · have hfk : ¬e.1 = kf := by
        intro hh
        have hek : (kf, vf).1 ∈ t.map Prod.fst :=
          List.mem_map_of_mem Prod.fst hmt
        rw [← hh] at hek
        exact (List.nodup_cons.mp hnd).1 hek
      have hckf : ¬("client_" ++ e.1) = kf :=
        fun hh => hncl (kf, vf) (List.mem_cons_of_mem _ hmt) e.1 hh.symm
      have hndt : (t.map Prod.fst).Nodup := (List.nodup_cons.mp hnd).2
      have hnclt : ∀ e' ∈ t, ∀ x : String, ¬e'.1 = "client_" ++ x :=
        fun e' he' => hncl e' (List.mem_cons_of_mem _ he')
      by_cases hcont : Dict.contains c e.1 = true
      · rw [if_pos hcont]
        obtain ⟨ih1, ih2⟩ := ih (Dict.set c ("client_" ++ e.1) e.2) kf vf
          hndt hnclt hmt
          (Dict.contains_set_mono String.beq_sound hc _ _)
        refine ⟨ih1, ?_⟩
        rw [ih2, Dict.get?_set_of_ne String.beq_sound
          (String.beq_false_of_ne hckf)]
      · rw [if_neg hcont]
        obtain ⟨ih1, ih2⟩ := ih (Dict.set c e.1 e.2) kf vf hndt hnclt hmt
          (Dict.contains_set_mono String.beq_sound hc _ _)
        refine ⟨ih1, ?_⟩
        rw [ih2, Dict.get?_set_of_ne String.beq_sound
          (String.beq_false_of_ne hfk)]

/-- The whole client-data merge preserves the value of any key that is
not a cert field and not in the alias namespace. -/
theorem merge_client_data_get_preserved {c rec : Record} {cd : Value}
    {k : String} {v : Value}
    (hcl : ∀ x : String, ¬k = "client_" ++ x)
    (h3 : ¬k = "cert_subject") (h4 : ¬k = "cert_expiry")
    (hm : merge_client_data c cd = some rec)
    (hget : Dict.get? c k = some v) :
    Dict.get? rec k = some v := by
  unfold merge_client_data at hm
  by_cases ht : cd.truthy = true
  · rw [if_pos ht] at hm
    cases cd with
    | obj l =>
      dsimp only at hm
      cases hfa : flatten_attrs c (Dict.pop l "attributes" (Value.obj [])).1 with
      | none => rw [hfa] at hm; cases hm
      | some c1 =>
        rw [hfa] at hm
        have hr := Option.some.inj hm
        subst hr
        apply merge_remaining_get_present hcl
        rw [flatten_cert_get_preserved h3 h4]
        rw [flatten_attrs_get_preserved hcl hfa]
        exact hget
    | null => cases hm
    | s x => cases hm
    | arr xs => cases hm
  · rw [if_neg ht] at hm
    rw [← Option.some.inj hm]
    exact hget

/-- The worker unfolded with its let bindings expanded. -/
theorem enrich_device_worker_eq (nadF sessF clientF : Value → Option (Nat × Value))
    (cache : Cache) (mac : Value) (sess : Record) :
    enrich_device_worker nadF sessF clientF cache mac sess =
      (merge_client_data
        (if (Dict.getD sess "authReqID" Value.null).truthy then
          Dict.set
            (if (Dict.getD sess "nadID" Value.null).truthy then
              (Dict.set sess "switch_name"
                (get_nad_name nadF cache (Dict.getD sess "nadID" Value.null)).1,
                (get_nad_name nadF cache (Dict.getD sess "nadID" Value.null)).2)
            else (sess, cache)).1
            "switch_interface"
            (get_session_details sessF (Dict.getD sess "authReqID" Value.null))
        else
          (if (Dict.getD sess "nadID" Value.null).truthy then
            (Dict.set sess "switch_name"
              (get_nad_name nadF cache (Dict.getD sess "nadID" Value.null)).1,
              (get_nad_name nadF cache (Dict.getD sess "nadID" Value.null)).2)
          else (sess, cache)).1)
        (get_client_info clientF mac)).map
        (fun r =>
          (r, (if (Dict.getD sess "nadID" Value.null).truthy then
            (Dict.set sess "switch_name"
              (get_nad_name nadF cache (Dict.getD sess "nadID" Value.null)).1,
              (get_nad_name nadF cache (Dict.getD sess "nadID" Value.null)).2)
          else (sess, cache)).2)) := rfl

/-- Through the whole per-device enrichment, any base field other than
the fixed enrichment names and the alias namespace keeps its base
value. -/
theorem enrich_worker_get_preserved
    {nadF sessF clientF : Value → Option (Nat × Value)} {cache : Cache}
    {mac : Value} {sess rec : Record} {c₂ : Cache} {k : String} {v : Value}
    (hw : enrich_device_worker nadF sessF clientF cache mac sess =
      some (rec, c₂))
    (h1 : ¬k = "switch_name") (h2 : ¬k = "switch_interface")
    (h3 : ¬k = "cert_subject") (h4 : ¬k = "cert_expiry")
    (hcl : ∀ x : String, ¬k = "client_" ++ x)
    (hget : Dict.get? sess k = some v) :
    Dict.get? rec k = some v := by
  rw [enrich_device_worker_eq] at hw
  cases hm : merge_client_data
      (if (Dict.getD sess "authReqID" Value.null).truthy = true then
        Dict.set
          (if (Dict.getD sess "nadID" Value.null).truthy = true then
            (Dict.set sess "switch_name"
              (get_nad_name nadF cache (Dict.getD sess "nadID" Value.null)).1,
              (get_nad_name nadF cache (Dict.getD sess "nadID" Value.null)).2)
          else (sess, cache)).1
          "switch_interface"
          (get_session_details sessF (Dict.getD sess "authReqID" Value.null))
      else
        (if (Dict.getD sess "nadID" Value.null).truthy = true then
          (Dict.set sess "switch_name"
            (get_nad_name nadF cache (Dict.getD sess "nadID" Value.null)).1,
            (get_nad_name nadF cache (Dict.getD sess "nadID" Value.null)).2)
        else (sess, cache)).1)
      (get_client_info clientF mac) with
  | none => rw [hm] at hw; cases hw
  | some r =>
    rw [hm] at hw
    have hr : r = rec := congrArg Prod.fst (Option.some.inj hw)
    subst hr
    apply merge_client_data_get_preserved hcl h3 h4 hm
    by_cases ha : (Dict.getD sess "authReqID" Value.null).truthy = true
    · rw [if_pos ha, Dict.get?_set_of_ne String.beq_sound
        (String.beq_false_of_ne (fun hh => h2 hh.symm))]
      by_cases hn : (Dict.getD sess "nadID" Value.null).truthy = true
      · rw [if_pos hn]
        exact (Dict.get?_set_of_ne String.beq_sound
          (String.beq_false_of_ne (fun hh => h1 hh.symm)) _ _).trans hget
      · rw [if_neg hn]
        exact hget
    · rw [if_neg ha]
      by_cases hn : (Dict.getD sess "nadID" Value.null).truthy = true
      · rw [if_pos hn]
        exact (Dict.get?_set_of_ne String.beq_sound
          (String.beq_false_of_ne (fun hh => h1 hh.symm)) _ _).trans hget
      · rw [if_neg hn]
        exact hget

/-- Certificate projection of the by-segment loop only writes
cert_issuer and cert_expiry. -/
theorem flatten_cert_seg_get_preserved {c : Record} {cert : Value}
    {k : String} (h3 : ¬k = "cert_issuer") (h4 : ¬k = "cert_expiry") :
    Dict.get? (flatten_cert_seg c cert) k = Dict.get? c k := by
  cases cert with
  | obj cl =>
    unfold flatten_cert_seg
    dsimp only
    by_cases ht : (Value.obj cl).truthy = true
    · rw [if_pos ht]
      rw [Dict.get?_set_of_ne String.beq_sound
        (String.beq_false_of_ne (fun h => h4 h.symm)),
        Dict.get?_set_of_ne String.beq_sound
        (String.beq_false_of_ne (fun h => h3 h.symm))]
    · rw [if_neg ht]
  | null => rfl
  | s x => rfl
  | arr xs => rfl

/-- The by-segment client-data merge preserves the value of any key
that is not cert_issuer or cert_expiry and not in the alias
namespace. -/
theorem merge_client_data_seg_get_preserved {c rec : Record} {cd : Value}
    {k : String} {v : Value}
    (hcl : ∀ x : String, ¬k = "client_" ++ x)
    (h3 : ¬k = "cert_issuer") (h4 : ¬k = "cert_expiry")
    (hm : merge_client_data_seg c cd = some rec)
    (hget : Dict.get? c k = some v) :
    Dict.get? rec k = some v := by
  unfold merge_client_data_seg at hm
  by_cases ht : cd.truthy = true
  · rw [if_pos ht] at hm
    cases cd with
    | obj l =>
      dsimp only at hm
      cases hfa : flatten_attrs c (Dict.pop l "attributes" (Value.obj [])).1 with
      | none => rw [hfa] at hm; cases hm
      | some c1 =>
        rw [hfa] at hm
        have hr := Option.some.inj hm
        subst hr
        apply merge_remaining_get_present hcl
        rw [flatten_cert_seg_get_preserved h3 h4]
        rw [flatten_attrs_get_preserved hcl hfa]
        exact hget
    | null => cases hm
    | s x => cases hm
    | arr xs => cases hm
  · rw [if_neg ht] at hm
    rw [← Option.some.inj hm]
    exact hget

/-- Through one iteration of the by-segment enrichment loop, any base
field other than cert_issuer, cert_expiry and the alias namespace
keeps its base value. -/
theorem enrich_record_seg_get_preserved
    {clientF : Value → Option (Nat × Value)} {mac : Value}
    {sess rec : Record} {k : String} {v : Value}
    (hw : enrich_record_seg clientF mac sess = some rec)
    (h3 : ¬k = "cert_issuer") (h4 : ¬k = "cert_expiry")
    (hcl : ∀ x : String, ¬k = "client_" ++ x)
    (hget : Dict.get? sess k = some v) :
    Dict.get? rec k = some v := by
  unfold enrich_record_seg at hw
  exact merge_client_data_seg_get_preserved hcl h3 h4 hw hget

/-- The field name ip is too short to carry the alias name as a
proper prefix. -/
theorem ip_not_client_prefixed : ∀ x : String, ¬"ip" = "client_" ++ x := by
  intro x h
  have hl := congrArg String.length h
  rw [String.length_append] at hl
  have h2 : ("ip" : String).length = 2 := rfl
  have h7 : ("client_" : String).length = 7 := rfl
  omega

/-- C4, counterexample.  In test-client.py a base record that already
has a switch_name field loses its value: with a truthy nadID and a
failing switch lookup, the enrichment overwrites the base switch_name
"old-name" with "Unknown".  In get-agni-clients-by-segment.py the
certificate projection likewise overwrites a base cert_issuer field.
So it is false that every field present in the base record still maps
to its base value after the merge. -/
theorem c4_base_field_overwritten_cex :
    ((enrich_device_worker (fun _ => none) (fun _ => none) (fun _ => none) []
        (Value.s "AA")
        [("mac", Value.s "AA"), ("nadID", Value.s "n1"),
         ("switch_name", Value.s "old-name")]).map
      (fun p => Dict.get? p.1 "switch_name") =
      some (some (Value.s "Unknown")) ∧
    ¬Value.s "Unknown" = Value.s "old-name") ∧
    ((merge_client_data_seg
        [("mac", Value.s "AA"), ("cert_issuer", Value.s "old-issuer")]
        (Value.obj
          [("certificate", Value.obj [("issuer", Value.s "new-issuer")])])).map
      (fun r => Dict.get? r "cert_issuer") =
      some (some (Value.s "new-issuer")) ∧
    ¬Value.s "new-issuer" = Value.s "old-issuer") :=
  ⟨⟨rfl, by simp⟩, ⟨rfl, by simp⟩⟩

/-- C4 (amended): base fields other than the fixed enrichment names of
the respective script (test-client.py: switch_name, switch_interface,
cert_subject, cert_expiry; get-agni-clients-by-segment.py:
cert_issuer, cert_expiry) and the alias namespace always keep their
base value through the merge; and within the remaining-field merge the
collision rule holds exactly: a colliding secondary field is added
under its distinct alias and the base field keeps its value.  The
fixed names and alias targets, however, are written unconditionally
and can overwrite identically named base fields. -/
theorem c4_merge_collision_amended :
    (∀ (nadF sessF clientF : Value → Option (Nat × Value)) (cache : Cache)
      (mac : Value) (sess rec : Record) (c₂ : Cache) (k : String) (v : Value),
      enrich_device_worker nadF sessF clientF cache mac sess =
        some (rec, c₂) →
      ¬k = "switch_name" → ¬k = "switch_interface" →
      ¬k = "cert_subject" → ¬k = "cert_expiry" →
      (∀ x : String, ¬k = "client_" ++ x) →
      Dict.get? sess k = some v → Dict.get? rec k = some v) ∧
    (∀ (clientF : Value → Option (Nat × Value)) (mac : Value)
      (sess rec : Record) (k : String) (v : Value),
      enrich_record_seg clientF mac sess = some rec →
      ¬k = "cert_issuer" → ¬k = "cert_expiry" →
      (∀ x : String, ¬k = "client_" ++ x) →
      Dict.get? sess k = some v → Dict.get? rec k = some v) ∧
    (∀ (fields c : Record) (kf : String) (vf : Value),
      (fields.map Prod.fst).Nodup →
      (∀ e ∈ fields, ∀ x : String, ¬e.1 = "client_" ++ x) →
      (kf, vf) ∈ fields → Dict.contains c kf = true →
      Dict.get? (merge_remaining c fields) ("client_" ++ kf) = some vf ∧
      Dict.get? (merge_remaining c fields) kf = Dict.get? c kf) :=
  ⟨fun _ _ _ _ _ _ _ _ _ _ hw h1 h2 h3 h4 hcl hget =>
    enrich_worker_get_preserved hw h1 h2 h3 h4 hcl hget,
  fun _ _ _ _ _ _ hw h3 h4 hcl hget =>
    enrich_record_seg_get_preserved hw h3 h4 hcl hget,
  fun fields c kf vf h1 h2 h3 h4 =>
    merge_remaining_collision_alias fields c kf vf h1 h2 h3 h4⟩

/-- C4, witness: with all lookups failing, the base ip field survives
both scripts' enrichment; and the colliding client field ip is stored
under its alias while the base ip keeps its value. -/
theorem c4_merge_collision_amended_witness :
    Dict.get?
        ((enrich_device_worker (fun _ => none) (fun _ => none) (fun _ => none)
          [] (Value.s "AA")
          [("mac", Value.s "AA"), ("ip", Value.s "1.2.3.4")]).getD
            ([], [])).1 "ip" = some (Value.s "1.2.3.4") ∧
    Dict.get?
        ((enrich_record_seg (fun _ => none) (Value.s "AA")
          [("mac", Value.s "AA"), ("ip", Value.s "1.2.3.4")]).getD [])
        "ip" = some (Value.s "1.2.3.4") ∧
    Dict.get? (merge_remaining [("ip", Value.s "base")] [("ip", Value.s "up")])
        ("client_" ++ "ip") = some (Value.s "up") ∧
    Dict.get? (merge_remaining [("ip", Value.s "base")] [("ip", Value.s "up")])
        "ip" = Dict.get? [("ip", Value.s "base")] "ip" := by
  have h1 := c4_merge_collision_amended.1 (fun _ => none) (fun _ => none)
    (fun _ => none) [] (Value.s "AA")
    [("mac", Value.s "AA"), ("ip", Value.s "1.2.3.4")]
    [("mac", Value.s "AA"), ("ip", Value.s "1.2.3.4")] [] "ip"
    (Value.s "1.2.3.4") rfl (by decide) (by decide) (by decide) (by decide)
    ip_not_client_prefixed rfl
  have hseg := c4_merge_collision_amended.2.1 (fun _ => none) (Value.s "AA")
    [("mac", Value.s "AA"), ("ip", Value.s "1.2.3.4")]
    [("mac", Value.s "AA"), ("ip", Value.s "1.2.3.4")] "ip"
    (Value.s "1.2.3.4") rfl (by decide) (by decide)
    ip_not_client_prefixed rfl
  have h2 := c4_merge_collision_amended.2.2 [("ip", Value.s "up")]
    [("ip", Value.s "base")] "ip" (Value.s "up") (by simp)
    (by intro e he x; simp at he; subst he; exact ip_not_client_prefixed x)
    (by simp) rfl
  exact ⟨h1, hseg, h2.1, h2.2⟩

/-- The reversed-priority fold written as a right fold over the
priority list. -/
theorem sorted_keys_foldr_form (priority_cols all_keys : List String) :
    sorted_keys priority_cols all_keys =
      priority_cols.foldr
        (fun col ks => if ks.contains col then col :: ks.erase col else ks)
        all_keys := by
  unfold sorted_keys
  rw [List.foldl_reverse]

/-- Bool membership agrees with propositional membership for
strings. -/
theorem str_contains_eq_decide (l : List String) (a : String) :
    l.contains a = decide (a ∈ l) := by
  by_cases h : a ∈ l <;> simp [h, List.elem_iff]

/-- Closed form of the export column ordering: the priority columns
present in the key set first, in priority order, followed by the
remaining keys in their original relative order. -/
theorem sorted_keys_spec (all_keys : List String) :
    ∀ priority_cols : List String, priority_cols.Nodup → all_keys.Nodup →
      sorted_keys priority_cols all_keys =
        priority_cols.filter (fun c => decide (c ∈ all_keys)) ++
          all_keys.filter (fun k => decide (k ∉ priority_cols)) := by
  intro p
  induction p with
  | nil =>
    intro _ hk
    rw [sorted_keys_foldr_form]
    simp
  | cons c p ih =>
    intro hp hk
    have hcp : c ∉ p := (List.nodup_cons.mp hp).1
    have hpn : p.Nodup := (List.nodup_cons.mp hp).2
    have hstep : p.foldr
        (fun col ks => if ks.contains col then col :: ks.erase col else ks)
        all_keys =
        p.filter (fun c => decide (c ∈ all_keys)) ++
          all_keys.filter (fun k => decide (k ∉ p)) := by
      rw [← sorted_keys_foldr_form]
      exact ih hpn hk
    rw [sorted_keys_foldr_form, List.foldr_cons, hstep]
    by_cases hc : c ∈ all_keys
    · have hcB : c ∈ all_keys.filter (fun k => decide (k ∉ p)) :=
        List.mem_filter.mpr ⟨hc, by simp [hcp]⟩
      have hcontains :
          (p.filter (fun c => decide (c ∈ all_keys)) ++
            all_keys.filter (fun k => decide (k ∉ p))).contains c = true := by
        rw [str_contains_eq_decide]
        simp only [decide_eq_true_eq]
        exact List.mem_append_right _ hcB
      rw [if_pos hcontains]
      have hcA : c ∉ p.filter (fun c => decide (c ∈ all_keys)) := by
        intro hmem
        exact hcp (List.mem_filter.mp hmem).1
      rw [List.erase_append_right _ hcA]
      have hBnd : (all_keys.filter (fun k => decide (k ∉ p))).Nodup :=
        hk.filter _
      rw [hBnd.erase_eq_filter, List.filter_filter]
      rw [List.filter_cons, if_pos (by simp [hc])]
      have hfilters :
          all_keys.filter (fun a => a != c && decide (a ∉ p)) =
            all_keys.filter (fun k => decide (k ∉ c :: p)) := by
        apply List.filter_congr
        intro x hx
        by_cases hxc : x = c <;> by_cases hxp : x ∈ p <;>
          simp [hxc, hxp, bne]
      rw [hfilters, List.cons_append]
    · have hcontains :
          ¬((p.filter (fun c => decide (c ∈ all_keys)) ++
            all_keys.filter (fun k => decide (k ∉ p))).contains c = true) := by
        rw [str_contains_eq_decide]
        simp only [decide_eq_true_eq]
        intro hmem
        rcases List.mem_append.mp hmem with hA | hB
        · exact hc (by simpa using (List.mem_filter.mp hA).2)
        · exact hc (List.mem_filter.mp hB).1
      rw [if_neg hcontains]
      rw [List.filter_cons, if_neg (by simp [hc])]
      have hfilters :
          all_keys.filter (fun k => decide (k ∉ p)) =
            all_keys.filter (fun k => decide (k ∉ c :: p)) := by
        apply List.filter_congr
        intro x hx
        have hxc : ¬x = c := fun hh => hc (hh ▸ hx)
        simp [List.mem_cons, hxc]
      rw [hfilters]

/-- C8: the export column sequence is exactly the priority columns
that occur in the key union, in the priority list's order, followed by
the remaining keys of the union in their residual order; absent
priority columns are skipped, no key is gained or lost, and the
spec's worked example — priority [A, B, C] over data {B, D} — yields
[B, D]. -/
theorem c8_export_column_order (priority_cols all_keys : List String)
    (hp : priority_cols.Nodup) (hk : all_keys.Nodup) :
    sorted_keys priority_cols all_keys =
      priority_cols.filter (fun c => decide (c ∈ all_keys)) ++
        all_keys.filter (fun k => decide (k ∉ priority_cols)) ∧
    (∀ x : String, x ∈ sorted_keys priority_cols all_keys ↔ x ∈ all_keys) ∧
    (∀ records : List Record,
      (∀ x : String, x ∈ all_keys ↔ ∃ r ∈ records, Dict.contains r x = true) →
      ∀ x : String, x ∈ sorted_keys priority_cols all_keys ↔
        ∃ r ∈ records, Dict.contains r x = true) ∧
    sorted_keys ["A", "B", "C"] ["D", "B"] = ["B", "D"] := by
  have hmem : ∀ x : String,
      x ∈ sorted_keys priority_cols all_keys ↔ x ∈ all_keys := by
    intro x
    rw [sorted_keys_spec _ _ hp hk]
    simp only [List.mem_append, List.mem_filter, decide_eq_true_eq]
    by_cases hxp : x ∈ priority_cols <;> simp [hxp]
  refine ⟨sorted_keys_spec _ _ hp hk, hmem, ?_, rfl⟩
  intro records hu x
  rw [hmem x, hu x]

/-- C8, witness: the ordering theorem at the spec's worked example. -/
theorem c8_export_column_order_witness :
    (["A", "B", "C"] : List String).Nodup ∧
    (["D", "B"] : List String).Nodup ∧
    (sorted_keys ["A", "B", "C"] ["D", "B"] =
      (["A", "B", "C"] : List String).filter
        (fun c => decide (c ∈ (["D", "B"] : List String))) ++
        (["D", "B"] : List String).filter
          (fun k => decide (k ∉ (["A", "B", "C"] : List String))) ∧
    (∀ x : String,
      x ∈ sorted_keys ["A", "B", "C"] ["D", "B"] ↔
        x ∈ (["D", "B"] : List String)) ∧
    (∀ records : List Record,
      (∀ x : String, x ∈ (["D", "B"] : List String) ↔
        ∃ r ∈ records, Dict.contains r x = true) →
      ∀ x : String, x ∈ sorted_keys ["A", "B", "C"] ["D", "B"] ↔
        ∃ r ∈ records, Dict.contains r x = true) ∧
    sorted_keys ["A", "B", "C"] ["D", "B"] = ["B", "D"]) :=
  ⟨by decide, by decide,
    c8_export_column_order ["A", "B", "C"] ["D", "B"] (by decide) (by decide)⟩

/-- Against a consistent cache, the switch-name lookup returns the
same value as a fresh run and keeps the cache consistent. -/
theorem get_nad_name_consistent (nadF : Value → Option (Nat × Value))
    {c : Cache} (hc : nadCacheConsistent nadF c) (k : Value) :
    (get_nad_name nadF c k).1 = nad_name_val nadF k ∧
    nadCacheConsistent nadF (get_nad_name nadF c k).2 := by
  unfold get_nad_name nad_name_val
  by_cases ht : k.truthy = true
  · simp only [ht, Bool.not_true, Bool.false_eq_true, if_neg, if_pos]
    cases hv : Dict.get? c k with
    | some v =>
      simp only
      exact ⟨(hc k v hv).symm ▸ rfl, hc⟩
    | none =>
      cases hq : nadF k with
      | none => simp [nadFetchName, hq, hc]
      | some sb =>
        obtain ⟨st, body⟩ := sb
        by_cases hst : st = 200
        · subst hst
          simp only [if_pos rfl]
          cases hd : vget body "data" (.obj []) with
          | none => simp [nadFetchName, hq, hd, hc]
          | some d =>
            cases hn : vget d "name" (.s "Unknown") with
            | none => simp [nadFetchName, hq, hd, hn, hc]
            | some name =>
              have hfn : nadFetchName nadF k = some name := by
                simp [nadFetchName, hq, hd, hn]
              constructor
              · simp [hn, hfn]
              · intro k' v' hget
                simp only [hn] at hget
                simp at hget
                rcases Dict.get?_set_cases Value.keyEq_sound hget with
                  ⟨hkk, rfl⟩ | hold
                · rw [← Value.keyEq_sound _ _ hkk]
                  exact hfn
                · exact hc k' v' hold
        · simp [hst, nadFetchName, hq, hc]
  · simp only [Bool.not_eq_true] at ht
    simp [ht, hc]

/-- Against a consistent cache, the worker's record does not depend on
the cache contents, and the cache it hands on stays consistent. -/
theorem enrich_worker_consistent (nadF sessF clientF : Value → Option (Nat × Value))
    {cache : Cache} (hc : nadCacheConsistent nadF cache)
    (mac : Value) (sess : Record) :
    (enrich_device_worker nadF sessF clientF cache mac sess).map Prod.fst =
      enrich_device_record nadF sessF clientF mac sess ∧
    ∀ (r : Record) (c₂ : Cache),
      enrich_device_worker nadF sessF clientF cache mac sess = some (r, c₂) →
      nadCacheConsistent nadF c₂ := by
  obtain ⟨hval, hcons⟩ :=
    get_nad_name_consistent nadF hc (Dict.getD sess "nadID" Value.null)
  rw [enrich_device_worker_eq]
  unfold enrich_device_record
  constructor
  · rw [hval]
    cases hm : merge_client_data
        (if (Dict.getD sess "authReqID" Value.null).truthy = true then
          Dict.set
            (if (Dict.getD sess "nadID" Value.null).truthy = true then
              (Dict.set sess "switch_name"
                (nad_name_val nadF (Dict.getD sess "nadID" Value.null)),
                (get_nad_name nadF cache (Dict.getD sess "nadID" Value.null)).2)
            else (sess, cache)).1
            "switch_interface"
            (get_session_details sessF (Dict.getD sess "authReqID" Value.null))
        else
          (if (Dict.getD sess "nadID" Value.null).truthy = true then
            (Dict.set sess "switch_name"
              (nad_name_val nadF (Dict.getD sess "nadID" Value.null)),
              (get_nad_name nadF cache (Dict.getD sess "nadID" Value.null)).2)
          else (sess, cache)).1)
        (get_client_info clientF mac) with
    | none =>
      by_cases hn : (Dict.getD sess "nadID" Value.null).truthy = true <;>
        by_cases ha : (Dict.getD sess "authReqID" Value.null).truthy = true <;>
        simp_all
    | some r =>
      by_cases hn : (Dict.getD sess "nadID" Value.null).truthy = true <;>
        by_cases ha : (Dict.getD sess "authReqID" Value.null).truthy = true <;>
        simp_all
  · intro r c₂ h
    by_cases hn : (Dict.getD sess "nadID" Value.null).truthy = true
    · simp only [hn, if_pos] at h
      cases hm : merge_client_data
          (if (Dict.getD sess "authReqID" Value.null).truthy = true then
            Dict.set
              (Dict.set sess "switch_name"
                (get_nad_name nadF cache (Dict.getD sess "nadID" Value.null)).1)
              "switch_interface"
              (get_session_details sessF (Dict.getD sess "authReqID" Value.null))
          else
            Dict.set sess "switch_name"
              (get_nad_name nadF cache (Dict.getD sess "nadID" Value.null)).1)
          (get_client_info clientF mac) with
      | none => simp_all
      | some r2 => simp_all
    · simp only [Bool.not_eq_true] at hn
      simp only [hn, Bool.false_eq_true, if_neg] at h
      cases hm : merge_client_data
          (if (Dict.getD sess "authReqID" Value.null).truthy = true then
            Dict.set sess "switch_interface"
              (get_session_details sessF (Dict.getD sess "authReqID" Value.null))
          else sess)
          (get_client_info clientF mac) with
      | none => simp_all
      | some r2 => simp_all

/-- The pooled enrichment from a consistent cache: when no device
crashes the worker, it produces exactly one record per work item, in
the items' order, each the cache-independent enrichment of its own
item. -/
theorem enrich_all_spec (nadF sessF clientF : Value → Option (Nat × Value)) :
    ∀ (items : List (Value × Record)) (cache : Cache),
      nadCacheConsistent nadF cache →
      (∀ p ∈ items,
        enrich_device_record nadF sessF clientF p.1 p.2 ≠ none) →
      ∃ (out : List Record) (c₂ : Cache),
        enrich_all nadF sessF clientF cache items = some (out, c₂) ∧
        out.length = items.length ∧
        ∀ (i : Nat) (h1 : i < out.length) (h2 : i < items.length),
          some (out.get ⟨i, h1⟩) =
            enrich_device_record nadF sessF clientF
              (items.get ⟨i, h2⟩).1 (items.get ⟨i, h2⟩).2 := by
  intro items
  induction items with
  | nil =>
    intro cache hc _
    exact ⟨[], cache, rfl, rfl, fun i h1 h2 => absurd h2 (by simp)⟩
  | cons it t ih =>
    intro cache hc hsucc
    obtain ⟨m, sd⟩ := it
    obtain ⟨hmap, hcons⟩ := enrich_worker_consistent nadF sessF clientF hc m sd
    cases hw : enrich_device_worker nadF sessF clientF cache m sd with
    | none =>
      rw [hw] at hmap
      exact absurd hmap.symm (hsucc (m, sd) (List.mem_cons_self _ _))
    | some rc =>
      obtain ⟨r, c₁⟩ := rc
      rw [hw] at hmap
      have hrec : enrich_device_record nadF sessF clientF m sd = some r :=
        hmap.symm
      obtain ⟨out, c₂, hall, hlen, hidx⟩ := ih c₁ (hcons r c₁ hw)
        (fun p hp => hsucc p (List.mem_cons_of_mem _ hp))
      refine ⟨r :: out, c₂, ?_, by simp [hlen], ?_⟩
      · unfold enrich_all
        rw [hw]
        dsimp only
        rw [hall]
      · intro i h1 h2
        cases i with
        | zero => exact hrec.symm
        | succ j =>
          exact hidx j (by simpa using h1) (by simpa using h2)

/-- C10: starting from the empty nad cache, the enrichment of the
UniqueDeviceMap produces exactly one output record per map entry, and
the i-th output is the enrichment of the i-th entry in the map's
iteration (insertion) order — results are collected positionally, as
executor.map does. -/
theorem c10_enrichment_positional
    (nadF sessF clientF : Value → Option (Nat × Value)) (raw : List Record)
    (hsucc : ∀ p ∈ unique_devices raw,
      enrich_device_record nadF sessF clientF p.1 p.2 ≠ none) :
    ∃ (out : List Record) (c₂ : Cache),
      enrich_all nadF sessF clientF [] (unique_devices raw) =
        some (out, c₂) ∧
      out.length = (unique_devices raw).length ∧
      ∀ (i : Nat) (h1 : i < out.length)
        (h2 : i < (unique_devices raw).length),
        some (out.get ⟨i, h1⟩) =
          enrich_device_record nadF sessF clientF
            ((unique_devices raw).get ⟨i, h2⟩).1
            ((unique_devices raw).get ⟨i, h2⟩).2 :=
  enrich_all_spec nadF sessF clientF (unique_devices raw) []
    (fun k v h => absurd h (by simp [Dict.get?])) hsucc

/-- C10, witness: one device, all lookups failing — one output record
in position. -/
theorem c10_enrichment_positional_witness :
    (∀ p ∈ unique_devices [[("mac", Value.s "AA")]],
      enrich_device_record (fun _ => none) (fun _ => none) (fun _ => none)
        p.1 p.2 ≠ none) ∧
    ∃ (out : List Record) (c₂ : Cache),
      enrich_all (fun _ => none) (fun _ => none) (fun _ => none) []
        (unique_devices [[("mac", Value.s "AA")]]) = some (out, c₂) ∧
      out.length = (unique_devices [[("mac", Value.s "AA")]]).length ∧
      ∀ (i : Nat) (h1 : i < out.length)
        (h2 : i < (unique_devices [[("mac", Value.s "AA")]]).length),
        some (out.get ⟨i, h1⟩) =
          enrich_device_record (fun _ => none) (fun _ => none) (fun _ => none)
            ((unique_devices [[("mac", Value.s "AA")]]).get ⟨i, h2⟩).1
            ((unique_devices [[("mac", Value.s "AA")]]).get ⟨i, h2⟩).2 := by
  have hsucc : ∀ p ∈ unique_devices [[("mac", Value.s "AA")]],
      enrich_device_record (fun _ => none) (fun _ => none) (fun _ => none)
        p.1 p.2 ≠ none := by
    intro p hp
    have hpv : p = (Value.s "AA", [("mac", Value.s "AA")]) := by
      simpa [unique_devices, Dict.getD, Dict.get?, Dict.set, Value.truthy]
        using hp
    subst hpv
    rw [show enrich_device_record (fun _ => none) (fun _ => none)
        (fun _ => none) (Value.s "AA") [("mac", Value.s "AA")] =
        some [("mac", Value.s "AA")] from rfl]
    simp
  exact ⟨hsucc,
    c10_enrichment_positional (fun _ => none) (fun _ => none) (fun _ => none)
      [[("mac", Value.s "AA")]] hsucc⟩
